import Mathlib

/-!
Verification of the convoy route optimizer core (`src/optimizer.py`).

The development shallowly embeds the routing engine: graph construction
from road segments (`_build_graph`), constrained path discovery
(`_find_path_distance` with its BFS and geodesic fallback), the greedy
per-vehicle route builder (`_assign_vehicle_route`) and the orchestration
(`optimize_routes`).  Numeric fields use `ℚ` in place of Python floats;
the float value `inf` returned by the path finder is modelled as `none`
in an `Option ℚ`.  The haversine great-circle function is pure
trigonometry with no algorithmic content, so the engine is parametrised
by an arbitrary distance function `hav : ℚ × ℚ → ℚ × ℚ → ℚ` standing for
`_haversine_distance`; no claim below depends on its actual values.

Python `set` objects (the "remaining destinations" working sets) are
unordered: their iteration order is a function of the element hashes,
not of insertion order.  They are modelled as canonically ordered
duplicate-free lists (sorted by a byte-wise string order), i.e. the
iteration order is a function of the set contents only, which is the
semantics the engine relies on.
-/

/-! ### A computable total order on strings

Used only to give Python sets a canonical iteration order.  `String.le`
is avoided because its decision procedure does not reduce in the kernel.
-/

/-- Lexicographic comparison of char lists by code point. -/
def lexLe : List Char → List Char → Bool
  | [], _ => true
  | _ :: _, [] => false
  | c :: cs, d :: ds =>
    if c.toNat < d.toNat then true
    else if d.toNat < c.toNat then false
    else lexLe cs ds

/-- Byte-wise string order used to canonicalise set iteration. -/
def strLeB (a b : String) : Bool := lexLe a.data b.data

/-- Insert a string into a `strLeB`-sorted list. -/
def insertLe (x : String) : List String → List String
  | [] => [x]
  | y :: ys => if strLeB x y then x :: y :: ys else y :: insertLe x ys

/-- Insertion sort by `strLeB`. -/
def sortLe : List String → List String
  | [] => []
  | x :: xs => insertLe x (sortLe xs)

/-- Model of a Python `set` of strings: the canonically ordered list of
its distinct elements.  Iterating the set is modelled as iterating this
list. -/
def pySet (xs : List String) : List String := sortLe xs.dedup

/-! ### Data model

Rows of the four cleaned input tables, with exactly the columns the
optimizer reads.  The data loader (`src/data_loader.py`) guarantees all
of these columns exist (it synthesises `total_demand_tons`,
`priority_score` and `has_airstrip` when missing), so `_get_demand`
always takes its first branch and the `.get(...)` defaults never fire;
the fields here are the post-ingestion values. -/

/-- Row of the supply-points table (columns read: `id`, `lat`, `lon`,
`has_airstrip`). -/
structure SupplyPoint where
  id : String
  lat : ℚ
  lon : ℚ
  has_airstrip : Bool
deriving DecidableEq

/-- Row of the destinations table (columns read: `dest_id`, `lat`,
`lon`, `priority`, `priority_score`, `total_demand_tons`,
`has_airstrip`). -/
structure Destination where
  dest_id : String
  lat : ℚ
  lon : ℚ
  priority : String
  priority_score : ℚ
  total_demand_tons : ℚ
  has_airstrip : Bool
deriving DecidableEq

/-- Row of the vehicles table (columns read: `vehicle_id`, `type`,
`mode`, `capacity_tons`, `max_range_km`, `speed_kmh`). -/
structure Vehicle where
  vehicle_id : String
  vtype : String
  mode : String
  capacity_tons : ℚ
  max_range_km : ℚ
  speed_kmh : ℚ
deriving DecidableEq

/-- Row of the routes table (columns read by `_build_graph`). -/
structure RouteSeg where
  from_point : String
  to_point : String
  distance_km : ℚ
  threat_level : String
  effective_distance : ℚ
  road_condition : String
deriving DecidableEq

/-- Edge payload stored in the adjacency graph (`edge_data` dict built
at `optimizer.py:68`). -/
structure EdgeData where
  distance_km : ℚ
  threat_level : String
  effective_distance : ℚ
  road_condition : String
deriving DecidableEq

/-- Edge payload of a route row. -/
def edgeData (r : RouteSeg) : EdgeData :=
  { distance_km := r.distance_km
    threat_level := r.threat_level
    effective_distance := r.effective_distance
    road_condition := r.road_condition }

/-- Adjacency map of one node: insertion-ordered association list
modelling a Python dict (unique keys). -/
abbrev AdjMap := List (String × EdgeData)

/-- The route graph: insertion-ordered association list from node id to
adjacency map, modelling `Dict[str, Dict[str, Dict]]`. -/
abbrev Graph := List (String × AdjMap)

/-- Lookup in an insertion-ordered association list (Python dict read). -/
def dlookup {α : Type} : List (String × α) → String → Option α
  | [], _ => none
  | (k, v) :: rest, x => if k = x then some v else dlookup rest x

/-- Python dict assignment `d[k] = v`: overwrite in place if the key
exists (keeping its position), otherwise append at the end. -/
def dictSet {α : Type} : List (String × α) → String → α → List (String × α)
  | [], k, v => [(k, v)]
  | (k0, v0) :: rest, k, v =>
    if k0 = k then (k, v) :: rest else (k0, v0) :: dictSet rest k v

/-- Update the value stored at an existing key in place (no-op when the
key is absent; callers establish presence first, mirroring
`graph[from_id][to_id] = edge_data` after the membership guards). -/
def dictModify {α : Type} : List (String × α) → String → (α → α) → List (String × α)
  | [], _, _ => []
  | (k0, v0) :: rest, k, f =>
    if k0 = k then (k, f v0) :: rest else (k0, v0) :: dictModify rest k f

/-- Model of `if key not in graph: graph[key] = {}` (optimizer.py:76-79). -/
def ensureKey (g : Graph) (k : String) : Graph :=
  match dlookup g k with
  | some _ => g
  | none => g ++ [(k, [])]

/-- One iteration of the `_build_graph` loop (optimizer.py:64-82): make
sure both endpoints are keys, then insert the edge in both directions. -/
def addRoute (g : Graph) (r : RouteSeg) : Graph :=
  let g1 := ensureKey (ensureKey g r.from_point) r.to_point
  let g2 := dictModify g1 r.from_point (fun m => dictSet m r.to_point (edgeData r))
  dictModify g2 r.to_point (fun m => dictSet m r.from_point (edgeData r))

/-- Model of `_build_graph` (optimizer.py:57-84). -/
def build_graph (routes : List RouteSeg) : Graph := routes.foldl addRoute []

/-- Model of `_get_edge` (optimizer.py:86-90). -/
def get_edge (g : Graph) (a b : String) : Option EdgeData :=
  match dlookup g a with
  | some adj => dlookup adj b
  | none => none

/-! ### The optimizer state and coordinate lookup -/

/-- The `ConvoyOptimizer` input tables.  The adjacency graph is derived
by `ConvoyOptimizer.graph` below, mirroring `self.graph =
self._build_graph()` in `__init__`. -/
structure ConvoyOptimizer where
  supply_points : List SupplyPoint
  destinations : List Destination
  vehicles : List Vehicle
  routes : List RouteSeg

/-- The adjacency graph built once in `__init__` (optimizer.py:52). -/
def ConvoyOptimizer.graph (o : ConvoyOptimizer) : Graph := build_graph o.routes

/-- First supply-point row matching an id
(`self.supply_points[self.supply_points['id'] == point_id]` + `iloc[0]`). -/
def lookupSP (o : ConvoyOptimizer) (pid : String) : Option SupplyPoint :=
  o.supply_points.find? (fun s => s.id = pid)

/-- First destination row matching an id. -/
def lookupDest (o : ConvoyOptimizer) (pid : String) : Option Destination :=
  o.destinations.find? (fun d => d.dest_id = pid)

/-- Model of `_get_coords` (optimizer.py:154-166): supply points first,
then destinations, else `None`. -/
def get_coords (o : ConvoyOptimizer) (pid : String) : Option (ℚ × ℚ) :=
  match lookupSP o pid with
  | some s => some (s.lat, s.lon)
  | none =>
    match lookupDest o pid with
    | some d => some (d.lat, d.lon)
    | none => none

/-- Model of `self.threat_threshold = {'low': 1, 'medium': 2, 'high': 3}`
read through `.get(t, 0)` (default 0 for unknown strings). -/
def threatRank (t : String) : Nat :=
  if t = "low" then 1 else if t = "medium" then 2 else if t = "high" then 3 else 0

/-- The running worst-threat update (optimizer.py:130-135 and 368, 397):
take the new label when its rank is strictly higher. -/
def bumpThreat (old new_ : String) : String :=
  if threatRank old < threatRank new_ then new_ else old

/-! ### Breadth-first search (optimizer.py:109-141)

The queue entries carry `(current, path, dist, max_threat)` exactly as
the Python tuples do.  The `visited` set is modelled as a list used only
through membership.  The while loop is driven by a fuel counter; every
lemma below is proved under the (always established) bound that the fuel
exceeds the queue length plus the number of unvisited graph nodes, which
makes the fuel-out branch unreachable. -/

/-- One BFS queue entry. -/
structure BEntry where
  node : String
  path : List String
  dist : ℚ
  threat : String

/-- Inner `for neighbor, edge_data in self.graph[current].items()` loop
(optimizer.py:120-141): either returns the found result (`.inr`) or the
grown visited set and queue suffix (`.inl`). -/
def expand (avoid : Bool) (dst : String) (pa : List String) (d : ℚ) (thr : String) :
    AdjMap → List String → List BEntry → (List String × List BEntry) ⊕ (ℚ × List String × String)
  | [], visited, acc => Sum.inl (visited, acc)
  | (n, e) :: rest, visited, acc =>
    if n ∈ visited then expand avoid dst pa d thr rest visited acc
    else if avoid && e.threat_level == "high" then expand avoid dst pa d thr rest visited acc
    else
      let nd := d + e.distance_km
      let np := pa ++ [n]
      let nt := bumpThreat thr e.threat_level
      if n = dst then Sum.inr (nd, np, nt)
      else expand avoid dst pa d thr rest (visited ++ [n]) (acc ++ [⟨n, np, nd, nt⟩])

/-- The BFS while loop (optimizer.py:114-141). -/
def bfsLoop (g : Graph) (avoid : Bool) (dst : String) :
    Nat → List BEntry → List String → Option (ℚ × List String × String)
  | 0, _, _ => none
  | _ + 1, [], _ => none
  | fuel + 1, ent :: rest, visited =>
    match dlookup g ent.node with
    | none => bfsLoop g avoid dst fuel rest visited
    | some adj =>
      match expand avoid dst ent.path ent.dist ent.threat adj visited [] with
      | Sum.inr res => some res
      | Sum.inl (visited2, newE) => bfsLoop g avoid dst fuel (rest ++ newE) visited2

/-- All node names occurring in a graph (outer keys and neighbour keys);
bounds the number of BFS enqueues. -/
def nodesOf (g : Graph) : List String :=
  (g.map (fun p => p.1 :: p.2.map Prod.fst)).flatten

/-- BFS from `src` towards `dst` with the initial queue and visited set
of optimizer.py:111-112 and enough fuel to run to completion. -/
def runBfs (g : Graph) (avoid : Bool) (src dst : String) :
    Option (ℚ × List String × String) :=
  bfsLoop g avoid dst ((nodesOf g).length + 1) [⟨src, [src], 0, "low"⟩] [src]

/-! ### Path finding (optimizer.py:92-152) -/

/-- BFS stage plus fallbacks of `_find_path_distance`
(optimizer.py:109-152): on BFS failure try the straight-line estimate,
else report the infinite distance `(none, [], "high")`. -/
def fpSearch (o : ConvoyOptimizer) (hav : ℚ × ℚ → ℚ × ℚ → ℚ) (a b : String)
    (avoid : Bool) : Option ℚ × List String × String :=
  match runBfs o.graph avoid a b with
  | some (d, p, t) => (some d, p, t)
  | none =>
    match get_coords o a, get_coords o b with
    | some c1, some c2 => (some (hav c1 c2), [a, b], "low")
    | _, _ => (none, [], "high")

/-- Model of `_find_path_distance` (optimizer.py:92-152).  Returns
`(distance, path, threat_level)` with `none` standing for the float
`inf`. -/
def find_path_distance (o : ConvoyOptimizer) (hav : ℚ × ℚ → ℚ × ℚ → ℚ)
    (a b : String) (avoid : Bool) : Option ℚ × List String × String :=
  if a = b then (some 0, [a], "low")
  else
    match get_edge o.graph a b with
    | some e =>
      if avoid && e.threat_level == "high" then fpSearch o hav a b avoid
      else (some e.distance_km, [a, b], e.threat_level)
    | none => fpSearch o hav a b avoid

/-! ### Admissible paths

Specification-side predicates used to state the claims: an edge is
admissible when it exists in the graph and is not filtered out by the
threat rule; a path is a node sequence chained by admissible edges. -/

/-- Admissibility of a single directed step (the edge exists and is not
excluded by `avoid_high_threat`). -/
def admEdgeB (g : Graph) (avoid : Bool) (u v : String) : Bool :=
  match get_edge g u v with
  | some e => !(avoid && e.threat_level == "high")
  | none => false

/-- Chained admissibility of consecutive nodes. -/
def chainAdm (g : Graph) (avoid : Bool) : List String → Bool
  | [] => true
  | [_] => true
  | a :: b :: rest => admEdgeB g avoid a b && chainAdm g avoid (b :: rest)

/-- Admissible path from `a` to `b`: nonempty node sequence starting at
`a`, ending at `b`, every consecutive pair joined by an admissible
edge. -/
def IsPath (g : Graph) (avoid : Bool) (a b : String) (p : List String) : Prop :=
  p.head? = some a ∧ p.getLast? = some b ∧ chainAdm g avoid p = true

instance (g : Graph) (avoid : Bool) (a b : String) (p : List String) :
    Decidable (IsPath g avoid a b p) := by
  unfold IsPath; infer_instance

/-! ### Demand and rounding -/

/-- Model of `_get_demand` (optimizer.py:186-198).  The data loader
always creates the `total_demand_tons` column, so the first branch of
the Python fallback chain is the one taken. -/
def get_demand (d : Destination) : ℚ := d.total_demand_tons

/-- Python `round(x, 1)` on the model rationals: round to the nearest
tenth (the half-tie direction differs from banker's rounding only on
exact ties, which is within the rounding tolerance all claims allow). -/
def round1 (q : ℚ) : ℚ := (round (q * 10) : ℚ) / 10

/-- Output record of the engine (`ConvoyAssignment` dataclass,
optimizer.py:11-23). -/
structure ConvoyAssignment where
  vehicle_id : String
  vehicle_type : String
  vehicle_mode : String
  supply_point : String
  destinations : List String
  total_distance_km : ℚ
  total_demand_tons : ℚ
  threat_exposure : String
  route_sequence : List String
  speed_kmh : ℚ
deriving DecidableEq

/-! ### Greedy per-vehicle assignment (optimizer.py:268-411) -/

/-- Best candidate tracked by the inner scan (`best_dest`,
`best_distance`, `best_path`, `best_threat`, optimizer.py:299-302). -/
structure BestCand where
  dest : String
  dist : ℚ
  path : List String
  threat : String

/-- Comparison against the current best distance, whose initial value is
the float `inf` (optimizer.py:300, 343). -/
def ltBest (d : ℚ) : Option BestCand → Bool
  | none => true
  | some b => d < b.dist

/-- Body of `for dest_id in remaining` (optimizer.py:304-347): test one
candidate destination and keep it when it is eligible and strictly
closer than the current best. -/
def scanStep (o : ConvoyOptimizer) (hav : ℚ × ℚ → ℚ × ℚ → ℚ) (avoid : Bool)
    (sp current mode : String) (cap maxR totD totQ : ℚ)
    (best : Option BestCand) (did : String) : Option BestCand :=
  match lookupDest o did with
  | none => best
  | some row =>
    if mode = "AIR" && !row.has_airstrip then best
    else if totQ + get_demand row > cap then best
    else
      match find_path_distance o hav current did avoid with
      | (none, _, _) => best
      | (some dout, pout, thr) =>
        match (find_path_distance o hav did sp avoid).1 with
        | none => best
        | some dback =>
          if totD + dout + dback > maxR then best
          else if ltBest dout best then some ⟨did, dout, pout, thr⟩ else best

/-- The full candidate scan over the remaining set (optimizer.py:298-347). -/
def scanBest (o : ConvoyOptimizer) (hav : ℚ × ℚ → ℚ × ℚ → ℚ) (avoid : Bool)
    (sp current mode : String) (cap maxR totD totQ : ℚ)
    (remaining : List String) : Option BestCand :=
  remaining.foldl (scanStep o hav avoid sp current mode cap maxR totD totQ) none

/-- Post-loop epilogue of `_assign_vehicle_route` (optimizer.py:373-411):
return `None` when nothing was assigned, otherwise close the route with
the return leg (estimating it by haversine when the path finder reports
`inf`) and build the `ConvoyAssignment`. -/
def finishAssign (o : ConvoyOptimizer) (hav : ℚ × ℚ → ℚ × ℚ → ℚ) (avoid : Bool)
    (v : Vehicle) (sp : String) (route assigned : List String)
    (totD totQ : ℚ) (maxT current : String) : Option ConvoyAssignment :=
  if assigned = [] then none
  else
    let fp := find_path_distance o hav current sp avoid
    let route2 := if fp.2.1 ≠ [] then route ++ fp.2.1.drop 1 else route ++ [sp]
    let dback :=
      match fp.1 with
      | some d => d
      | none =>
        match get_coords o current, get_coords o sp with
        | some c1, some c2 => hav c1 c2
        | _, _ => 0
    some
      { vehicle_id := v.vehicle_id
        vehicle_type := v.vtype
        vehicle_mode := v.mode
        supply_point := sp
        destinations := assigned
        total_distance_km := round1 (totD + dback)
        total_demand_tons := totQ
        threat_exposure := bumpThreat maxT fp.2.2
        route_sequence := route2
        speed_kmh := v.speed_kmh }

/-- The greedy `while remaining:` loop (optimizer.py:298-371), driven by
a fuel counter.  Each accepted destination is removed from `remaining`,
so `remaining.length` fuel always suffices; with that much fuel the
fuel-out branch coincides with the empty-remaining exit. -/
def assignLoop (o : ConvoyOptimizer) (hav : ℚ × ℚ → ℚ × ℚ → ℚ) (avoid : Bool)
    (v : Vehicle) (sp : String) :
    Nat → List String → List String → List String → ℚ → ℚ → String → String →
    Option ConvoyAssignment
  | 0, _, route, assigned, totD, totQ, maxT, current =>
    finishAssign o hav avoid v sp route assigned totD totQ maxT current
  | fuel + 1, remaining, route, assigned, totD, totQ, maxT, current =>
    if remaining = [] then
      finishAssign o hav avoid v sp route assigned totD totQ maxT current
    else
      match scanBest o hav avoid sp current v.mode v.capacity_tons v.max_range_km
          totD totQ remaining with
      | none => finishAssign o hav avoid v sp route assigned totD totQ maxT current
      | some b =>
        match lookupDest o b.dest with
        | none =>
          -- unreachable: the scan only selects ids present in the table
          -- (the Python `.iloc[0]` at optimizer.py:353 relies on the same fact)
          finishAssign o hav avoid v sp route assigned totD totQ maxT current
        | some row =>
          assignLoop o hav avoid v sp fuel (remaining.erase b.dest)
            (route ++ b.path.drop 1) (assigned ++ [b.dest])
            (totD + b.dist) (totQ + get_demand row) (bumpThreat maxT b.threat) b.dest

/-- Body of `_assign_vehicle_route` after the AIR-origin gate
(optimizer.py:289-411): `remaining = set(destination_ids)` then the
greedy loop starting at the supply point. -/
def assignCore (o : ConvoyOptimizer) (hav : ℚ × ℚ → ℚ × ℚ → ℚ) (v : Vehicle)
    (sp : String) (destination_ids : List String) (avoid : Bool) :
    Option ConvoyAssignment :=
  let remaining := pySet destination_ids
  assignLoop o hav avoid v sp remaining.length remaining [sp] [] 0 0 "low" sp

/-- Model of `_assign_vehicle_route` (optimizer.py:268-411).  The AIR
gate (283-287) fires only when the supply-point id matches a
supply-points row whose `has_airstrip` is false. -/
def assign_vehicle_route (o : ConvoyOptimizer) (hav : ℚ × ℚ → ℚ × ℚ → ℚ)
    (v : Vehicle) (sp : String) (destination_ids : List String) (avoid : Bool) :
    Option ConvoyAssignment :=
  if v.mode = "AIR" then
    match lookupSP o sp with
    | some s => if s.has_airstrip then assignCore o hav v sp destination_ids avoid else none
    | none => assignCore o hav v sp destination_ids avoid
  else assignCore o hav v sp destination_ids avoid

/-! ### Orchestration (optimizer.py:200-266) -/

/-- Maximum of a list of rationals (`vehicles['max_range_km'].max()`,
taken on a nonempty list wherever the code evaluates it). -/
def maxOf : List ℚ → ℚ
  | [] => 0
  | x :: xs => xs.foldl max x

/-- Stable sort of the vehicle table by capacity, largest first
(optimizer.py:218).  pandas does not promise a stable order among equal
capacities; this model fixes the tie order to the table order. -/
def sortVehicles (vs : List Vehicle) : List Vehicle :=
  vs.mergeSort (fun a b => b.capacity_tons ≤ a.capacity_tons)

/-- Stable sort of destination rows by priority score, highest first
(optimizer.py:245). -/
def sortByPriority (ds : List Destination) : List Destination :=
  ds.mergeSort (fun a b => b.priority_score ≤ a.priority_score)

/-- The vehicle loop of `optimize_routes` (optimizer.py:250-265): one
`_assign_vehicle_route` call per vehicle, accepted assignments remove
their destinations from the remaining pool. -/
def optLoop (o : ConvoyOptimizer) (hav : ℚ × ℚ → ℚ × ℚ → ℚ) (avoid : Bool)
    (sp : String) :
    List Vehicle → List String → List ConvoyAssignment → List ConvoyAssignment
  | [], _, acc => acc
  | v :: vs, remaining, acc =>
    if remaining = [] then acc
    else
      match assign_vehicle_route o hav v sp remaining avoid with
      | none => optLoop o hav avoid sp vs remaining acc
      | some a =>
        if a.destinations = [] then optLoop o hav avoid sp vs remaining acc
        else
          optLoop o hav avoid sp vs (remaining.filter (fun x => x ∉ a.destinations))
            (acc ++ [a])

/-- Steps of `optimize_routes` after the supply-point coordinates are
resolved (optimizer.py:226-266): range prefilter on round-trip geodesic
distance, priority sort feeding the unordered remaining set, then the
vehicle loop. -/
def optimizeFrom (o : ConvoyOptimizer) (hav : ℚ × ℚ → ℚ × ℚ → ℚ) (sp : String)
    (vehicles : List Vehicle) (spc : ℚ × ℚ) (avoid : Bool) :
    List ConvoyAssignment :=
  let maxRange := maxOf (vehicles.map (fun v => v.max_range_km))
  let reachable :=
    (o.destinations.filter (fun d => hav spc (d.lat, d.lon) * 2 ≤ maxRange)).map
      (fun d => d.dest_id)
  if reachable = [] then []
  else
    let sorted :=
      sortByPriority (o.destinations.filter (fun d => d.dest_id ∈ reachable))
    let remaining := pySet (sorted.map (fun d => d.dest_id))
    optLoop o hav avoid sp vehicles remaining []

/-- Model of `optimize_routes` (optimizer.py:200-266). -/
def optimize_routes (o : ConvoyOptimizer) (hav : ℚ × ℚ → ℚ × ℚ → ℚ)
    (sp : String) (available : List String) (avoid : Bool) :
    List ConvoyAssignment :=
  let vehicles := o.vehicles.filter (fun v => v.vehicle_id ∈ available)
  if vehicles = [] then []
  else
    let sorted := sortVehicles vehicles
    match get_coords o sp with
    | none => []
    | some spc => optimizeFrom o hav sp sorted spc avoid

/-! ### Association-list and graph lemmas -/

theorem dlookup_mem {α : Type} {l : List (String × α)} {x : String} {v : α}
    (h : dlookup l x = some v) : (x, v) ∈ l := by
  induction l with
  | nil => simp [dlookup] at h
  | cons p rest ih =>
    obtain ⟨k, w⟩ := p
    by_cases hk : k = x
    · subst hk
      simp [dlookup] at h
      simp [h]
    · simp [dlookup, hk] at h
      exact List.mem_cons_of_mem _ (ih h)

theorem dlookup_eq_of_mem_nodup {α : Type} {l : List (String × α)} {x : String} {v : α}
    (hmem : (x, v) ∈ l) (hnd : (l.map Prod.fst).Nodup) : dlookup l x = some v := by
  induction l with
  | nil => simp at hmem
  | cons p rest ih =>
    obtain ⟨k, w⟩ := p
    have hnd2 : k ∉ rest.map Prod.fst ∧ (rest.map Prod.fst).Nodup := by
      rw [List.map_cons] at hnd
      exact List.nodup_cons.mp hnd
    rcases List.mem_cons.mp hmem with heq | htl
    · cases heq
      simp [dlookup]
    · have hkx : k ≠ x := by
        intro hkx
        subst hkx
        exact hnd2.1 (List.mem_map.mpr ⟨(k, v), htl, rfl⟩)
      simp [dlookup, hkx]
      exact ih htl hnd2.2

theorem dlookup_append {α : Type} (l1 l2 : List (String × α)) (x : String) :
    dlookup (l1 ++ l2) x =
      match dlookup l1 x with
      | some v => some v
      | none => dlookup l2 x := by
  induction l1 with
  | nil => simp [dlookup]
  | cons p rest ih =>
    obtain ⟨k, w⟩ := p
    by_cases hk : k = x <;> simp [dlookup, hk, ih]

theorem dlookup_none_iff {α : Type} (l : List (String × α)) (x : String) :
    dlookup l x = none ↔ x ∉ l.map Prod.fst := by
  induction l with
  | nil => simp [dlookup]
  | cons p rest ih =>
    obtain ⟨k, w⟩ := p
    by_cases hk : k = x
    · subst hk
      simp [dlookup]
    · simp [dlookup, hk, ih, Ne.symm hk]

theorem dlookup_dictSet {α : Type} (l : List (String × α)) (k : String) (v : α)
    (x : String) :
    dlookup (dictSet l k v) x = if k = x then some v else dlookup l x := by
  induction l with
  | nil =>
    by_cases hk : k = x <;> simp [dictSet, dlookup, hk]
  | cons p rest ih =>
    obtain ⟨k0, v0⟩ := p
    by_cases h0 : k0 = k
    · subst h0
      by_cases hk : k0 = x <;> simp [dictSet, dlookup, hk]
    · have h1 : dictSet ((k0, v0) :: rest) k v = (k0, v0) :: dictSet rest k v := by
        simp [dictSet, h0]
      rw [h1]
      by_cases h0x : k0 = x
      · subst h0x
        have : k ≠ k0 := fun h => h0 h.symm
        simp [dlookup, this]
      · simp [dlookup, h0x, ih]

theorem dlookup_dictModify {α : Type} (l : List (String × α)) (k : String)
    (f : α → α) (x : String) :
    dlookup (dictModify l k f) x =
      if k = x then (dlookup l k).map f else dlookup l x := by
  induction l with
  | nil => by_cases hk : k = x <;> simp [dictModify, dlookup, hk]
  | cons p rest ih =>
    obtain ⟨k0, v0⟩ := p
    by_cases h0 : k0 = k
    · subst h0
      by_cases hk : k0 = x <;> simp [dictModify, dlookup, hk]
    · have h1 : dictModify ((k0, v0) :: rest) k f = (k0, v0) :: dictModify rest k f := by
        simp [dictModify, h0]
      rw [h1]
      by_cases h0x : k0 = x
      · subst h0x
        have hkx : k ≠ k0 := fun h => h0 h.symm
        simp [dlookup, hkx, h0]
      · simp [dlookup, h0x, ih, h0]

theorem dictSet_keys_absent {α : Type} (l : List (String × α)) (k : String) (v : α)
    (h : dlookup l k = none) :
    (dictSet l k v).map Prod.fst = l.map Prod.fst ++ [k] := by
  induction l with
  | nil => simp [dictSet]
  | cons p rest ih =>
    obtain ⟨k0, v0⟩ := p
    by_cases h0 : k0 = k
    · subst h0
      simp [dlookup] at h
    · simp [dlookup, h0] at h
      simp [dictSet, h0, ih h]

theorem dictSet_keys_present {α : Type} (l : List (String × α)) (k : String) (v : α)
    (h : dlookup l k ≠ none) :
    (dictSet l k v).map Prod.fst = l.map Prod.fst := by
  induction l with
  | nil => simp [dlookup] at h
  | cons p rest ih =>
    obtain ⟨k0, v0⟩ := p
    by_cases h0 : k0 = k
    · subst h0
      simp [dictSet]
    · simp [dlookup, h0] at h
      simp [dictSet, h0, ih h]

theorem dictSet_keys_nodup {α : Type} (l : List (String × α)) (k : String) (v : α)
    (hnd : (l.map Prod.fst).Nodup) : ((dictSet l k v).map Prod.fst).Nodup := by
  by_cases h : dlookup l k = none
  · rw [dictSet_keys_absent l k v h]
    have hk : k ∉ l.map Prod.fst := (dlookup_none_iff l k).mp h
    simp [List.nodup_append, hnd, hk]
  · rw [dictSet_keys_present l k v h]
    exact hnd

theorem mem_dictModify {α : Type} (l : List (String × α)) (k : String) (f : α → α)
    (p : String × α) (hp : p ∈ dictModify l k f) :
    p ∈ l ∨ ∃ v, dlookup l k = some v ∧ p = (k, f v) := by
  induction l with
  | nil => simp [dictModify] at hp
  | cons q rest ih =>
    obtain ⟨k0, v0⟩ := q
    by_cases h0 : k0 = k
    · subst h0
      have h1 : dictModify ((k0, v0) :: rest) k0 f = (k0, f v0) :: rest := by
        simp [dictModify]
      rw [h1] at hp
      rcases List.mem_cons.mp hp with h | h
      · right
        exact ⟨v0, by simp [dlookup], h⟩
      · left
        exact List.mem_cons_of_mem _ h
    · have h1 : dictModify ((k0, v0) :: rest) k f = (k0, v0) :: dictModify rest k f := by
        simp [dictModify, h0]
      rw [h1] at hp
      rcases List.mem_cons.mp hp with h | h
      · left
        simp [h]
      · rcases ih h with h2 | h2
        · left
          exact List.mem_cons_of_mem _ h2
        · right
          rcases h2 with ⟨v, hv, hpv⟩
          exact ⟨v, by simp [dlookup, h0, hv], hpv⟩

/-- Inner adjacency maps have duplicate-free keys. -/
def InnerNodup (g : Graph) : Prop :=
  ∀ p ∈ g, ((Prod.snd p).map Prod.fst).Nodup

theorem innerNodup_dictModify {g : Graph} {k t : String} {e : EdgeData}
    (h : InnerNodup g) :
    InnerNodup (dictModify g k (fun m => dictSet m t e)) := by
  intro p hp
  rcases mem_dictModify g k _ p hp with hmem | ⟨v, hv, hpv⟩
  · exact h p hmem
  · subst hpv
    exact dictSet_keys_nodup v t e (h (k, v) (dlookup_mem hv))

theorem innerNodup_ensureKey {g : Graph} {k : String} (h : InnerNodup g) :
    InnerNodup (ensureKey g k) := by
  intro p hp
  unfold ensureKey at hp
  cases hl : dlookup g k with
  | some v =>
    rw [hl] at hp
    exact h p hp
  | none =>
    rw [hl] at hp
    rcases List.mem_append.mp hp with hmem | hmem
    · exact h p hmem
    · simp at hmem
      subst hmem
      simp

theorem innerNodup_addRoute {g : Graph} {r : RouteSeg} (h : InnerNodup g) :
    InnerNodup (addRoute g r) := by
  unfold addRoute
  exact innerNodup_dictModify (innerNodup_dictModify
    (innerNodup_ensureKey (innerNodup_ensureKey h)))

theorem innerNodup_foldl (routes : List RouteSeg) :
    ∀ g : Graph, InnerNodup g → InnerNodup (routes.foldl addRoute g) := by
  induction routes with
  | nil => intro g hg; simpa using hg
  | cons r rest ih =>
    intro g hg
    simpa using ih (addRoute g r) (innerNodup_addRoute hg)

theorem innerNodup_build (routes : List RouteSeg) : InnerNodup (build_graph routes) := by
  unfold build_graph
  exact innerNodup_foldl routes [] (by intro p hp; simp at hp)

theorem dlookup_ensureKey_self (g : Graph) (k : String) :
    dlookup (ensureKey g k) k ≠ none := by
  unfold ensureKey
  cases hl : dlookup g k with
  | some v => simp [hl]
  | none =>
    rw [dlookup_append]
    simp [hl, dlookup]

theorem dlookup_ensureKey_pres (g : Graph) (j k : String)
    (h : dlookup g k ≠ none) : dlookup (ensureKey g j) k ≠ none := by
  unfold ensureKey
  cases hl : dlookup g j with
  | some v => simpa using h
  | none =>
    rw [dlookup_append]
    cases hk : dlookup g k with
    | some v => simp
    | none => exact absurd hk h

theorem dlookup_dictModify_pres {α : Type} (l : List (String × α)) (a k : String)
    (f : α → α) (h : dlookup l k ≠ none) :
    dlookup (dictModify l a f) k ≠ none := by
  rw [dlookup_dictModify]
  by_cases ha : a = k
  · subst ha
    simp
    cases hl : dlookup l a with
    | some v => simp
    | none => exact absurd hl h
  · simpa [ha] using h

theorem get_edge_ensureKey (g : Graph) (k a b : String) :
    get_edge (ensureKey g k) a b = get_edge g a b := by
  unfold ensureKey
  cases hl : dlookup g k with
  | some v => rfl
  | none =>
    unfold get_edge
    rw [dlookup_append]
    cases ha : dlookup g a with
    | some adj => rfl
    | none =>
      by_cases hk : k = a
      · subst hk
        simp [dlookup]
      · simp [dlookup, hk]

theorem get_edge_setPair (g : Graph) (a b : String) (e : EdgeData)
    (h : dlookup g a ≠ none) (u v : String) :
    get_edge (dictModify g a (fun m => dictSet m b e)) u v =
      if u = a ∧ v = b then some e else get_edge g u v := by
  unfold get_edge
  rw [dlookup_dictModify]
  by_cases hu : a = u
  · subst hu
    cases hl : dlookup g a with
    | none => exact absurd hl h
    | some m =>
      by_cases hv : v = b
      · subst hv
        simp [hl, dlookup_dictSet]
      · simp [hl, dlookup_dictSet, hv, Ne.symm hv]
  · simp [hu, Ne.symm hu]

theorem get_edge_addRoute (g : Graph) (r : RouteSeg) (u v : String) :
    get_edge (addRoute g r) u v =
      if u = r.to_point ∧ v = r.from_point then some (edgeData r)
      else if u = r.from_point ∧ v = r.to_point then some (edgeData r)
      else get_edge g u v := by
  unfold addRoute
  have hf : dlookup (ensureKey (ensureKey g r.from_point) r.to_point) r.from_point ≠ none :=
    dlookup_ensureKey_pres _ _ _ (dlookup_ensureKey_self g r.from_point)
  have ht : dlookup (dictModify (ensureKey (ensureKey g r.from_point) r.to_point)
      r.from_point (fun m => dictSet m r.to_point (edgeData r))) r.to_point ≠ none :=
    dlookup_dictModify_pres _ _ _ _
      (dlookup_ensureKey_self (ensureKey g r.from_point) r.to_point)
  rw [get_edge_setPair _ _ _ _ ht, get_edge_setPair _ _ _ _ hf,
    get_edge_ensureKey, get_edge_ensureKey]

/-- Edge lookups in the built graph are symmetric: both directions are
always written together with the same payload (optimizer.py:81-82). -/
def SymGraph (g : Graph) : Prop := ∀ u v, get_edge g u v = get_edge g v u

theorem symGraph_addRoute {g : Graph} (r : RouteSeg) (h : SymGraph g) :
    SymGraph (addRoute g r) := by
  intro u v
  rw [get_edge_addRoute, get_edge_addRoute]
  by_cases h1 : u = r.to_point ∧ v = r.from_point
  · by_cases h2 : v = r.to_point ∧ u = r.from_point <;> simp [h1, h2]
  · by_cases h2 : u = r.from_point ∧ v = r.to_point
    · have h3 : v = r.to_point ∧ u = r.from_point → True := fun _ => trivial
      by_cases h4 : v = r.to_point ∧ u = r.from_point <;> simp [h1, h2, h4]
    · by_cases h4 : v = r.to_point ∧ u = r.from_point
      · exact absurd ⟨h4.2, h4.1⟩ h2
      · by_cases h5 : v = r.from_point ∧ u = r.to_point
        · exact absurd ⟨h5.2, h5.1⟩ h1
        · simp [h1, h2, h4, h5, h u v]

theorem symGraph_build (routes : List RouteSeg) : SymGraph (build_graph routes) := by
  unfold build_graph
  have base : SymGraph ([] : Graph) := by
    intro u v
    rfl
  have main : ∀ rs : List RouteSeg, ∀ g : Graph, SymGraph g →
      SymGraph (rs.foldl addRoute g) := by
    intro rs
    induction rs with
    | nil => intro g hg; simpa using hg
    | cons r rest ih =>
      intro g hg
      simpa using ih (addRoute g r) (symGraph_addRoute r hg)
  exact main routes [] base

theorem node_mem_nodesOf {g : Graph} {u : String} {adj : AdjMap} {n : String}
    {e : EdgeData} (hadj : dlookup g u = some adj) (hmem : (n, e) ∈ adj) :
    n ∈ nodesOf g := by
  unfold nodesOf
  rw [List.mem_flatten]
  refine ⟨u :: adj.map Prod.fst, ?_, ?_⟩
  · exact List.mem_map.mpr ⟨(u, adj), dlookup_mem hadj, rfl⟩
  · exact List.mem_cons_of_mem _ (List.mem_map.mpr ⟨(n, e), hmem, rfl⟩)

/-! ### Lemmas about admissible paths -/

theorem chainAdm_append_singleton (g : Graph) (av : Bool) (q : List String) (b : String) :
    chainAdm g av (q ++ [b]) = true ↔
      chainAdm g av q = true ∧ ∀ x, q.getLast? = some x → admEdgeB g av x b = true := by
  induction q with
  | nil => simp [chainAdm]
  | cons x xs ih =>
    cases xs with
    | nil => simp [chainAdm]
    | cons y ys =>
      have hstep : chainAdm g av ((x :: y :: ys) ++ [b]) =
          (admEdgeB g av x y && chainAdm g av ((y :: ys) ++ [b])) := rfl
      have hstep2 : chainAdm g av (x :: y :: ys) =
          (admEdgeB g av x y && chainAdm g av (y :: ys)) := rfl
      rw [hstep, hstep2]
      constructor
      · intro h
        simp only [Bool.and_eq_true] at h
        rcases h with ⟨hxy, htail⟩
        rcases ih.mp htail with ⟨hc, hlast⟩
        refine ⟨by simp only [Bool.and_eq_true]; exact ⟨hxy, hc⟩, ?_⟩
        intro z hz
        exact hlast z (by simpa using hz)
      · intro ⟨hc, hlast⟩
        simp only [Bool.and_eq_true] at hc
        rcases hc with ⟨hxy, hc2⟩
        simp only [Bool.and_eq_true]
        refine ⟨hxy, ih.mpr ⟨hc2, ?_⟩⟩
        intro z hz
        exact hlast z (by simpa using hz)

theorem isPath_singleton (g : Graph) (av : Bool) (a : String) :
    IsPath g av a a [a] := by
  refine ⟨rfl, rfl, rfl⟩

theorem isPath_ne_nil {g : Graph} {av : Bool} {a b : String} {p : List String}
    (h : IsPath g av a b p) : p ≠ [] := by
  intro hp
  subst hp
  simp [IsPath] at h

theorem isPath_head {g : Graph} {av : Bool} {a b : String} {p : List String}
    (h : IsPath g av a b p) : p.head? = some a := h.1

theorem isPath_last {g : Graph} {av : Bool} {a b : String} {p : List String}
    (h : IsPath g av a b p) : p.getLast? = some b := h.2.1

theorem isPath_length_pos {g : Graph} {av : Bool} {a b : String} {p : List String}
    (h : IsPath g av a b p) : 1 ≤ p.length := by
  cases p with
  | nil => exact absurd rfl (isPath_ne_nil h)
  | cons x xs => simp

theorem isPath_length_ge_two {g : Graph} {av : Bool} {a b : String} {p : List String}
    (h : IsPath g av a b p) (hab : a ≠ b) : 2 ≤ p.length := by
  cases p with
  | nil => exact absurd rfl (isPath_ne_nil h)
  | cons x xs =>
    cases xs with
    | nil =>
      obtain ⟨h1, h2, _⟩ := h
      simp at h1 h2
      exact absurd (h1.symm.trans h2) hab
    | cons y ys => simp

theorem isPath_append_last {g : Graph} {av : Bool} {a u n : String} {p : List String}
    (h : IsPath g av a u p) (hadm : admEdgeB g av u n = true) :
    IsPath g av a n (p ++ [n]) := by
  obtain ⟨h1, h2, h3⟩ := h
  refine ⟨?_, ?_, ?_⟩
  · rw [List.head?_append_of_ne_nil _ (isPath_ne_nil ⟨h1, h2, h3⟩)]
    exact h1
  · simp
  · exact (chainAdm_append_singleton g av p n).mpr ⟨h3, by
      intro x hx
      rw [h2] at hx
      cases hx
      exact hadm⟩

theorem isPath_decomp {g : Graph} {av : Bool} {a b : String} {p : List String}
    (h : IsPath g av a b p) (hlen : 2 ≤ p.length) :
    ∃ q x, p = q ++ [b] ∧ IsPath g av a x q ∧ admEdgeB g av x b = true ∧
      q.length + 1 = p.length := by
  obtain ⟨h1, h2, h3⟩ := h
  have hne : p ≠ [] := by
    intro hp
    subst hp
    simp at h1
  have hsplit : p = p.dropLast ++ [p.getLast hne] := (p.dropLast_append_getLast hne).symm
  have hb : p.getLast hne = b := by
    have := List.getLast?_eq_getLast p hne
    rw [h2] at this
    exact (Option.some_injective _ this.symm)
  have hqne : p.dropLast ≠ [] := by
    intro hq
    have : p.length ≤ 1 := by
      have hl := congrArg List.length hsplit
      rw [hq] at hl
      simp at hl
      omega
    omega
  obtain ⟨x, hx⟩ : ∃ x, p.dropLast.getLast? = some x := by
    cases hq : p.dropLast with
    | nil => exact absurd hq hqne
    | cons z zs => exact ⟨(z :: zs).getLast (by simp), List.getLast?_eq_getLast _ _⟩
  have hchain : chainAdm g av (p.dropLast ++ [b]) = true := by
    rw [hb] at hsplit
    rw [← hsplit]
    exact h3
  rcases (chainAdm_append_singleton g av p.dropLast b).mp hchain with ⟨hc, hlast⟩
  refine ⟨p.dropLast, x, by rw [hb] at hsplit; exact hsplit, ⟨?_, hx, hc⟩, hlast x hx, ?_⟩
  · rw [← @List.head?_append_of_ne_nil _ p.dropLast [p.getLast hne] hqne, ← hsplit]
    exact h1
  · rw [List.length_dropLast]
    omega

theorem admEdgeB_symm {g : Graph} (hsym : SymGraph g) (av : Bool) (u v : String) :
    admEdgeB g av u v = admEdgeB g av v u := by
  unfold admEdgeB
  rw [hsym u v]

theorem chainAdm_reverse {g : Graph} (hsym : SymGraph g) (av : Bool) :
    ∀ p : List String, chainAdm g av p = true → chainAdm g av p.reverse = true := by
  intro p
  induction p with
  | nil => intro h; simp [chainAdm]
  | cons x xs ih =>
    cases xs with
    | nil => intro h; simp [chainAdm]
    | cons y ys =>
      intro h
      have h1 : admEdgeB g av x y = true ∧ chainAdm g av (y :: ys) = true := by
        simpa [chainAdm] using h
      have hrev : (x :: y :: ys).reverse = (y :: ys).reverse ++ [x] := by simp
      rw [hrev]
      refine (chainAdm_append_singleton g av _ x).mpr ⟨ih h1.2, ?_⟩
      intro z hz
      rw [List.getLast?_reverse] at hz
      simp at hz
      subst hz
      rw [admEdgeB_symm hsym]
      exact h1.1

theorem isPath_reverse {g : Graph} (hsym : SymGraph g) {av : Bool} {a b : String}
    {p : List String} (h : IsPath g av a b p) : IsPath g av b a p.reverse := by
  obtain ⟨h1, h2, h3⟩ := h
  refine ⟨?_, ?_, chainAdm_reverse hsym av p h3⟩
  · rw [List.head?_reverse]
    exact h2
  · rw [List.getLast?_reverse]
    exact h1

/-! ### Properties of the canonical set order -/

theorem char_toNat_inj {c d : Char} (h : c.toNat = d.toNat) : c = d := by
  have hv : c.val = d.val := by
    have h2 : c.val.toNat = d.val.toNat := h
    exact UInt32.toNat.inj h2
  exact Char.eq_of_val_eq hv

theorem lexLe_total : ∀ a b : List Char, lexLe a b = true ∨ lexLe b a = true := by
  intro a
  induction a with
  | nil => intro b; left; simp [lexLe]
  | cons c cs ih =>
    intro b
    cases b with
    | nil => right; simp [lexLe]
    | cons d ds =>
      by_cases h1 : c.toNat < d.toNat
      · left
        simp [lexLe, h1]
      · by_cases h2 : d.toNat < c.toNat
        · right
          simp [lexLe, h2]
        · have he : c.toNat = d.toNat := by omega
          rcases ih ds with h | h
          · left
            simp [lexLe, h1, h2, h]
          · right
            have h3 : ¬d.toNat < c.toNat := by omega
            have h4 : ¬c.toNat < d.toNat := by omega
            simp [lexLe, h3, h4, h]

theorem lexLe_antisymm : ∀ a b : List Char, lexLe a b = true → lexLe b a = true → a = b := by
  intro a
  induction a with
  | nil =>
    intro b hab hba
    cases b with
    | nil => rfl
    | cons d ds => simp [lexLe] at hba
  | cons c cs ih =>
    intro b hab hba
    cases b with
    | nil => simp [lexLe] at hab
    | cons d ds =>
      by_cases h1 : c.toNat < d.toNat
      · have : ¬d.toNat < c.toNat := by omega
        simp [lexLe, this, h1] at hba
      · by_cases h2 : d.toNat < c.toNat
        · simp [lexLe, h1, h2] at hab
        · have he : c = d := char_toNat_inj (by omega)
          subst he
          simp [lexLe, h1, h2] at hab hba
          rw [ih ds hab hba]

theorem lexLe_trans : ∀ a b c : List Char, lexLe a b = true → lexLe b c = true →
    lexLe a c = true := by
  intro a
  induction a with
  | nil => intro b c hab hbc; simp [lexLe]
  | cons x xs ih =>
    intro b c hab hbc
    cases b with
    | nil => simp [lexLe] at hab
    | cons y ys =>
      cases c with
      | nil => simp [lexLe] at hbc
      | cons z zs =>
        by_cases hxy1 : x.toNat < y.toNat
        · by_cases hyz1 : y.toNat < z.toNat
          · simp [lexLe, show x.toNat < z.toNat by omega]
          · by_cases hyz2 : z.toNat < y.toNat
            · simp [lexLe, hyz1, hyz2] at hbc
            · simp [lexLe, show x.toNat < z.toNat by omega]
        · by_cases hxy2 : y.toNat < x.toNat
          · simp [lexLe, hxy1, hxy2] at hab
          · by_cases hyz1 : y.toNat < z.toNat
            · simp [lexLe, show x.toNat < z.toNat by omega]
            · by_cases hyz2 : z.toNat < y.toNat
              · simp [lexLe, hyz1, hyz2] at hbc
              · have h1 : ¬x.toNat < z.toNat := by omega
                have h2 : ¬z.toNat < x.toNat := by omega
                simp [lexLe, hxy1, hxy2] at hab
                simp [lexLe, hyz1, hyz2] at hbc
                simp [lexLe, h1, h2, ih ys zs hab hbc]

theorem strLeB_total (a b : String) : strLeB a b = true ∨ strLeB b a = true :=
  lexLe_total a.data b.data

theorem strLeB_antisymm {a b : String} (hab : strLeB a b = true)
    (hba : strLeB b a = true) : a = b := by
  have h := lexLe_antisymm a.data b.data hab hba
  cases a
  cases b
  simp at h
  rw [h]

theorem strLeB_trans {a b c : String} (hab : strLeB a b = true)
    (hbc : strLeB b c = true) : strLeB a c = true :=
  lexLe_trans a.data b.data c.data hab hbc

theorem insertLe_perm (x : String) (l : List String) :
    (insertLe x l).Perm (x :: l) := by
  induction l with
  | nil => simp [insertLe]
  | cons y ys ih =>
    by_cases h : strLeB x y
    · simp [insertLe, h]
    · have h2 : insertLe x (y :: ys) = y :: insertLe x ys := by simp [insertLe, h]
      rw [h2]
      exact (ih.cons y).trans (List.Perm.swap x y ys)

theorem sortLe_perm (l : List String) : (sortLe l).Perm l := by
  induction l with
  | nil => simp [sortLe]
  | cons x xs ih =>
    exact (insertLe_perm x (sortLe xs)).trans (ih.cons x)

theorem insertLe_sorted (x : String) (l : List String)
    (h : List.Pairwise (fun a b => strLeB a b = true) l) :
    List.Pairwise (fun a b => strLeB a b = true) (insertLe x l) := by
  induction l with
  | nil => simp [insertLe]
  | cons y ys ih =>
    rcases List.pairwise_cons.mp h with ⟨hy, hys⟩
    by_cases hxy : strLeB x y
    · have hall : ∀ z ∈ y :: ys, strLeB x z = true := by
        intro z hz
        rcases List.mem_cons.mp hz with h1 | h1
        · subst h1
          exact hxy
        · exact strLeB_trans hxy (hy z h1)
      simp only [insertLe, hxy, if_pos]
      exact List.pairwise_cons.mpr ⟨hall, h⟩
    · have hyx : strLeB y x = true := by
        rcases strLeB_total x y with h1 | h1
        · exact absurd h1 hxy
        · exact h1
      have h2 : insertLe x (y :: ys) = y :: insertLe x ys := by simp [insertLe, hxy]
      rw [h2]
      refine List.pairwise_cons.mpr ⟨?_, ih hys⟩
      intro z hz
      have hz2 : z ∈ x :: ys := (insertLe_perm x ys).mem_iff.mp hz
      rcases List.mem_cons.mp hz2 with h1 | h1
      · subst h1
        exact hyx
      · exact hy z h1

theorem sortLe_sorted (l : List String) :
    List.Pairwise (fun a b => strLeB a b = true) (sortLe l) := by
  induction l with
  | nil => simp [sortLe]
  | cons x xs ih => exact insertLe_sorted x (sortLe xs) ih

instance : IsAntisymm String (fun a b => strLeB a b = true) :=
  ⟨fun _ _ h1 h2 => strLeB_antisymm h1 h2⟩

theorem mem_pySet (x : String) (xs : List String) : x ∈ pySet xs ↔ x ∈ xs := by
  unfold pySet
  rw [(sortLe_perm xs.dedup).mem_iff]
  exact xs.mem_dedup

theorem pySet_nodup (xs : List String) : (pySet xs).Nodup :=
  (sortLe_perm xs.dedup).nodup_iff.mpr xs.nodup_dedup

theorem pySet_eq_of_perm {xs ys : List String} (h : xs.Perm ys) :
    pySet xs = pySet ys := by
  unfold pySet
  have hp : (sortLe xs.dedup).Perm (sortLe ys.dedup) :=
    ((sortLe_perm xs.dedup).trans h.dedup).trans (sortLe_perm ys.dedup).symm
  exact List.eq_of_perm_of_sorted hp (sortLe_sorted xs.dedup) (sortLe_sorted ys.dedup)

/-! ### BFS invariants and correctness -/

/-- Length of the path at the front of the BFS queue (`⊤` when empty). -/
def minLen : List BEntry → ℕ∞
  | [] => ⊤
  | e :: _ => (e.path.length : ℕ∞)

/-- Node universe of a graph as a finset, for the fuel accounting. -/
def nodesFinset (g : Graph) : Finset String := (nodesOf g).toFinset

theorem expand_spec (g : Graph) (avoid : Bool) (dst u : String) (pa : List String)
    (d : ℚ) (thr : String) (adj : AdjMap) (hadj : dlookup g u = some adj) :
    ∀ l : AdjMap, (∀ q ∈ l, dlookup adj q.1 = some q.2) →
    ∀ visited acc, dst ∉ visited →
    (match expand avoid dst pa d thr l visited acc with
     | Sum.inr res => res.2.1 = pa ++ [dst] ∧ admEdgeB g avoid u dst = true
     | Sum.inl (v2, acc2) =>
        ∃ news, acc2 = acc ++ news ∧
          v2 = visited ++ news.map BEntry.node ∧
          (news.map BEntry.node).Nodup ∧
          (∀ ent ∈ news, ent.path = pa ++ [ent.node] ∧ ent.node ∉ visited ∧
             ent.node ≠ dst ∧ admEdgeB g avoid u ent.node = true) ∧
          (∀ q ∈ l, (avoid && q.2.threat_level == "high") = false → q.1 ∈ v2)) := by
  intro l
  induction l with
  | nil =>
    intro hl visited acc hdst
    refine ⟨[], by simp, by simp, by simp, by simp, by simp⟩
  | cons q l ih =>
    intro hl visited acc hdst
    obtain ⟨n, e⟩ := q
    by_cases hv : n ∈ visited
    · have hstep : expand avoid dst pa d thr ((n, e) :: l) visited acc =
          expand avoid dst pa d thr l visited acc := by
        simp [expand, hv]
      rw [hstep]
      have hrec := ih (fun q hq => hl q (List.mem_cons_of_mem _ hq)) visited acc hdst
      cases hres : expand avoid dst pa d thr l visited acc with
      | inr res =>
        rw [hres] at hrec
        exact hrec
      | inl pair =>
        rw [hres] at hrec
        obtain ⟨v2, acc2⟩ := pair
        obtain ⟨news, h1, h2, h3, h4, h5⟩ := hrec
        refine ⟨news, h1, h2, h3, h4, ?_⟩
        intro q hq hpass
        rcases List.mem_cons.mp hq with hq1 | hq1
        · cases hq1
          rw [h2]
          exact List.mem_append.mpr (Or.inl hv)
        · exact h5 q hq1 hpass
    · by_cases hthreat : (avoid && e.threat_level == "high") = true
      · have hstep : expand avoid dst pa d thr ((n, e) :: l) visited acc =
            expand avoid dst pa d thr l visited acc := by
          simp [expand, hv, hthreat]
        rw [hstep]
        have hrec := ih (fun q hq => hl q (List.mem_cons_of_mem _ hq)) visited acc hdst
        cases hres : expand avoid dst pa d thr l visited acc with
        | inr res =>
          rw [hres] at hrec
          exact hrec
        | inl pair =>
          rw [hres] at hrec
          obtain ⟨v2, acc2⟩ := pair
          obtain ⟨news, h1, h2, h3, h4, h5⟩ := hrec
          refine ⟨news, h1, h2, h3, h4, ?_⟩
          intro q hq hpass
          rcases List.mem_cons.mp hq with hq1 | hq1
          · cases hq1
            rw [Bool.eq_false_iff] at hpass
            exact absurd hthreat hpass
          · exact h5 q hq1 hpass
      · have hle : dlookup adj n = some e := hl (n, e) (by simp)
        have hg : get_edge g u n = some e := by
          unfold get_edge
          rw [hadj]
          exact hle
        have hfalse : (avoid && e.threat_level == "high") = false :=
          Bool.eq_false_iff.mpr hthreat
        have hadm : admEdgeB g avoid u n = true := by
          unfold admEdgeB
          rw [hg]
          show (!(avoid && e.threat_level == "high")) = true
          rw [hfalse]
          rfl
        by_cases hn : n = dst
        · subst hn
          have hstep : expand avoid n pa d thr ((n, e) :: l) visited acc =
              Sum.inr (d + e.distance_km, pa ++ [n], bumpThreat thr e.threat_level) := by
            simp [expand, hv, hthreat]
          rw [hstep]
          exact ⟨rfl, hadm⟩
        · have hstep : expand avoid dst pa d thr ((n, e) :: l) visited acc =
              expand avoid dst pa d thr l (visited ++ [n])
                (acc ++ [⟨n, pa ++ [n], d + e.distance_km, bumpThreat thr e.threat_level⟩]) := by
            simp [expand, hv, hthreat, hn]
          rw [hstep]
          have hdst2 : dst ∉ visited ++ [n] := by
            intro hmem
            rcases List.mem_append.mp hmem with h | h
            · exact hdst h
            · simp at h
              exact hn h.symm
          have hrec := ih (fun q hq => hl q (List.mem_cons_of_mem _ hq))
            (visited ++ [n])
            (acc ++ [⟨n, pa ++ [n], d + e.distance_km, bumpThreat thr e.threat_level⟩]) hdst2
          cases hres : expand avoid dst pa d thr l (visited ++ [n])
              (acc ++ [⟨n, pa ++ [n], d + e.distance_km, bumpThreat thr e.threat_level⟩]) with
          | inr res =>
            rw [hres] at hrec
            exact hrec
          | inl pair =>
            rw [hres] at hrec
            obtain ⟨v2, acc2⟩ := pair
            obtain ⟨news, h1, h2, h3, h4, h5⟩ := hrec
            refine ⟨⟨n, pa ++ [n], d + e.distance_km, bumpThreat thr e.threat_level⟩ :: news,
              by simpa using h1, ?_, ?_, ?_, ?_⟩
            · rw [h2]
              simp
            · simp only [List.map_cons]
              refine List.nodup_cons.mpr ⟨?_, h3⟩
              intro hmem
              rcases List.mem_map.mp hmem with ⟨ent, hent, hnode⟩
              have h6 := (h4 ent hent).2.1
              apply h6
              rw [hnode]
              simp
            · intro ent hent
              rcases List.mem_cons.mp hent with h | h
              · subst h
                exact ⟨rfl, hv, hn, hadm⟩
              · obtain ⟨hp, hnv, hnd2, ha⟩ := h4 ent h
                refine ⟨hp, ?_, hnd2, ha⟩
                intro hmem
                exact hnv (List.mem_append.mpr (Or.inl hmem))
            · intro q hq hpass
              rcases List.mem_cons.mp hq with hq1 | hq1
              · cases hq1
                rw [h2]
                simp
              · have := h5 q hq1 hpass
                rw [h2] at this
                rw [h2]
                rcases List.mem_append.mp this with h | h
                · rcases List.mem_append.mp h with h6 | h6
                  · exact List.mem_append.mpr (Or.inl (List.mem_append.mpr (Or.inl h6)))
                  · simp at h6
                    subst h6
                    simp
                · simp
                  right
                  right
                  rcases List.mem_map.mp h with ⟨ent, hent, hnode⟩
                  exact ⟨ent, hent, hnode⟩

theorem minLen_le_mem (rest news : List BEntry)
    (hs : List.Pairwise (fun m n : ℕ => m ≤ n) (rest.map (fun e => e.path.length)))
    (q0 : BEntry) (hq0 : q0 ∈ rest) :
    minLen (rest ++ news) ≤ (q0.path.length : ℕ∞) := by
  cases rest with
  | nil => simp at hq0
  | cons r0 rest2 =>
    have heq : minLen ((r0 :: rest2) ++ news) = (r0.path.length : ℕ∞) := rfl
    rw [heq]
    rcases List.mem_cons.mp hq0 with h | h
    · rw [h]
    · have hs2 : ∀ a ∈ rest2, r0.path.length ≤ a.path.length := by
        have h3 := hs
        simp at h3
        exact h3.1
      exact Nat.cast_le.mpr (hs2 q0 h)

theorem minLen_le_of_bounds (rest news : List BEntry) (eLen : ℕ)
    (hrestub : ∀ q ∈ rest, q.path.length ≤ eLen + 1)
    (hnewlen : ∀ ent ∈ news, ent.path.length = eLen + 1)
    (hne : news ≠ []) :
    minLen (rest ++ news) ≤ ((eLen + 1 : ℕ) : ℕ∞) := by
  cases rest with
  | cons r0 rest2 =>
    have heq : minLen ((r0 :: rest2) ++ news) = (r0.path.length : ℕ∞) := rfl
    rw [heq]
    exact Nat.cast_le.mpr (hrestub r0 (by simp))
  | nil =>
    cases news with
    | nil => exact absurd rfl hne
    | cons n0 news2 =>
      have heq : minLen (([] : List BEntry) ++ (n0 :: news2)) = (n0.path.length : ℕ∞) := rfl
      rw [heq]
      exact Nat.cast_le.mpr (le_of_eq (hnewlen n0 (by simp)))

theorem bfs_min_step (g : Graph) (avoid : Bool) (src dst u : String) (eLen : ℕ)
    (rest news : List BEntry) (V V2 : List String)
    (hsrc : src ∈ V)
    (hVsub : ∀ x ∈ V, x ∈ V2)
    (hV2 : ∀ x ∈ V2, x ∈ V ∨ x ∈ news.map BEntry.node)
    (hnewmem : ∀ x ∈ news.map BEntry.node, x ∉ V)
    (hnewlen : ∀ ent ∈ news, ent.path.length = eLen + 1)
    (hminOld : ∀ w, w ∉ V → ∀ p, IsPath g avoid src w p → eLen + 1 ≤ p.length)
    (hoptRest : ∀ q ∈ rest, ∀ p, IsPath g avoid src q.node p → q.path.length ≤ p.length)
    (hrestub : ∀ q ∈ rest, q.path.length ≤ eLen + 1)
    (hsortedRest : List.Pairwise (fun m n : ℕ => m ≤ n) (rest.map (fun e => e.path.length)))
    (hproc : ∀ v ∈ V, (v = u ∨ v ∈ rest.map BEntry.node) ∨
       ∀ n, admEdgeB g avoid v n = true → n ∈ V)
    (hcov : ∀ n, admEdgeB g avoid u n = true → n ∈ V2) :
    ∀ L w p, w ∉ V2 → IsPath g avoid src w p → p.length = L →
      minLen (rest ++ news) + 1 ≤ (p.length : ℕ∞) := by
  intro L
  induction L using Nat.strong_induction_on with
  | _ L IH =>
    intro w p hw hp hlen
    have hwV : w ∉ V := fun h => hw (hVsub w h)
    have hwsrc : src ≠ w := fun h => hwV (h ▸ hsrc)
    have hlen2 : 2 ≤ p.length := isPath_length_ge_two hp hwsrc
    rcases isPath_decomp hp hlen2 with ⟨q, x, hpq, hq, hadm, hqlen⟩
    by_cases hx : x ∈ V2
    · rcases hV2 x hx with hxV | hxnews
      · rcases hproc x hxV with hcase | hclosed
        · rcases hcase with hxu | hxrest
          · exact absurd (hcov w (hxu ▸ hadm)) hw
          · rcases List.mem_map.mp hxrest with ⟨q0, hq0, hq0node⟩
            have h1 : q0.path.length ≤ q.length := hoptRest q0 hq0 q (hq0node ▸ hq)
            have h2 : minLen (rest ++ news) ≤ (q0.path.length : ℕ∞) :=
              minLen_le_mem rest news hsortedRest q0 hq0
            calc minLen (rest ++ news) + 1 ≤ (q0.path.length : ℕ∞) + 1 :=
                  add_le_add_right h2 1
              _ ≤ (q.length : ℕ∞) + 1 := add_le_add_right (Nat.cast_le.mpr h1) 1
              _ = (p.length : ℕ∞) := by
                  rw [← Nat.cast_add_one]
                  exact_mod_cast congrArg (fun n : ℕ => (n : ℕ∞)) hqlen
        · exact absurd (hVsub w (hclosed w hadm)) hw
      · have hxV : x ∉ V := hnewmem x hxnews
        have h1 : eLen + 1 ≤ q.length := hminOld x hxV q hq
        have hnewsne : news ≠ [] := by
          intro h
          rw [h] at hxnews
          simp at hxnews
        have h2 : minLen (rest ++ news) ≤ ((eLen + 1 : ℕ) : ℕ∞) :=
          minLen_le_of_bounds rest news eLen hrestub hnewlen hnewsne
        calc minLen (rest ++ news) + 1 ≤ ((eLen + 1 : ℕ) : ℕ∞) + 1 :=
              add_le_add_right h2 1
          _ ≤ (q.length : ℕ∞) + 1 := add_le_add_right (Nat.cast_le.mpr h1) 1
          _ = (p.length : ℕ∞) := by
              rw [← Nat.cast_add_one]
              exact_mod_cast congrArg (fun n : ℕ => (n : ℕ∞)) hqlen
    · have hql : q.length < L := by omega
      have hIH := IH q.length hql x q hx hq rfl
      calc minLen (rest ++ news) + 1 ≤ (q.length : ℕ∞) := hIH
        _ ≤ (p.length : ℕ∞) := Nat.cast_le.mpr (by omega)

theorem enat_succ_le {a b : ℕ} (h : (a : ℕ∞) + 1 ≤ (b : ℕ∞)) : a + 1 ≤ b := by
  rw [← Nat.cast_add_one] at h
  exact_mod_cast h

theorem top_add_one_not_le (n : ℕ) : ¬((⊤ : ℕ∞) + 1 ≤ (n : ℕ∞)) := by simp

/-- The BFS loop invariant, holding at every entry to the while loop:
queue entries carry admissible paths from the source; visited nodes are
queue endpoints or fully expanded; queue path lengths are sorted and
spread over at most two consecutive values; every path to an unvisited
node is longer than the front path; entry paths are shortest. -/
structure BfsInv (g : Graph) (avoid : Bool) (src dst : String)
    (Q : List BEntry) (V : List String) : Prop where
  hsrc : src ∈ V
  hdst : dst ∉ V
  hent : ∀ e ∈ Q, IsPath g avoid src e.node e.path ∧ e.node ∈ V ∧ e.node ≠ dst
  hsorted : List.Pairwise (fun m n : ℕ => m ≤ n) (Q.map (fun e => e.path.length))
  hpair : ∀ e1 ∈ Q, ∀ e2 ∈ Q, e2.path.length ≤ e1.path.length + 1
  hmin : ∀ w, w ∉ V → ∀ p, IsPath g avoid src w p → minLen Q + 1 ≤ (p.length : ℕ∞)
  hopt : ∀ e ∈ Q, ∀ p, IsPath g avoid src e.node p → e.path.length ≤ p.length
  hproc : ∀ v ∈ V, v ∈ Q.map BEntry.node ∨ ∀ n, admEdgeB g avoid v n = true → n ∈ V

theorem bfsInv_no_path {g : Graph} {avoid : Bool} {src dst : String} {V : List String}
    (inv : BfsInv g avoid src dst [] V) : ∀ p, ¬IsPath g avoid src dst p := by
  intro p hp
  have h := inv.hmin dst inv.hdst p hp
  exact top_add_one_not_le p.length h

theorem bfsInv_step (g : Graph) (avoid : Bool) (src dst : String)
    (ent : BEntry) (rest news : List BEntry) (V V2 : List String)
    (inv : BfsInv g avoid src dst (ent :: rest) V)
    (hV2eq : V2 = V ++ news.map BEntry.node)
    (hnews : ∀ e2 ∈ news, e2.path = ent.path ++ [e2.node] ∧ e2.node ∉ V ∧
       e2.node ≠ dst ∧ admEdgeB g avoid ent.node e2.node = true)
    (hcov : ∀ n, admEdgeB g avoid ent.node n = true → n ∈ V2) :
    BfsInv g avoid src dst (rest ++ news) V2 := by
  have entPath : IsPath g avoid src ent.node ent.path := (inv.hent ent (by simp)).1
  have newlen : ∀ e2 ∈ news, e2.path.length = ent.path.length + 1 := by
    intro e2 h2
    rw [(hnews e2 h2).1]
    simp
  have hminOldN : ∀ w, w ∉ V → ∀ p, IsPath g avoid src w p →
      ent.path.length + 1 ≤ p.length := by
    intro w hw p hp
    have h := inv.hmin w hw p hp
    have heq : minLen (ent :: rest) = (ent.path.length : ℕ∞) := rfl
    rw [heq] at h
    exact enat_succ_le h
  have hrestub : ∀ q ∈ rest, q.path.length ≤ ent.path.length + 1 := by
    intro q hq
    exact inv.hpair ent (by simp) q (by simp [hq])
  have hrestlb : ∀ q ∈ rest, ent.path.length ≤ q.path.length := by
    intro q hq
    have hs := inv.hsorted
    simp only [List.map_cons] at hs
    rcases List.pairwise_cons.mp hs with ⟨h1, _⟩
    exact h1 q.path.length (List.mem_map.mpr ⟨q, hq, rfl⟩)
  have hsortedRest : List.Pairwise (fun m n : ℕ => m ≤ n)
      (rest.map (fun e => e.path.length)) := by
    have hs := inv.hsorted
    simp only [List.map_cons] at hs
    exact (List.pairwise_cons.mp hs).2
  have hprocA : ∀ v ∈ V, (v = ent.node ∨ v ∈ rest.map BEntry.node) ∨
      ∀ n, admEdgeB g avoid v n = true → n ∈ V := by
    intro v hv
    rcases inv.hproc v hv with h | h
    · left
      simpa using h
    · right
      exact h
  have hVsub : ∀ x ∈ V, x ∈ V2 := by
    intro x hx
    rw [hV2eq]
    exact List.mem_append.mpr (Or.inl hx)
  have hnewmemN : ∀ x ∈ news.map BEntry.node, x ∉ V := by
    intro x hx
    rcases List.mem_map.mp hx with ⟨e2, he2, hnode⟩
    rw [← hnode]
    exact (hnews e2 he2).2.1
  refine ⟨hVsub src inv.hsrc, ?_, ?_, ?_, ?_, ?_, ?_, ?_⟩
  · rw [hV2eq]
    intro hmem
    rcases List.mem_append.mp hmem with h | h
    · exact inv.hdst h
    · rcases List.mem_map.mp h with ⟨e2, he2, hnode⟩
      exact (hnews e2 he2).2.2.1 hnode
  · intro e he
    rcases List.mem_append.mp he with h | h
    · obtain ⟨h1, h2, h3⟩ := inv.hent e (by simp [h])
      exact ⟨h1, hVsub e.node h2, h3⟩
    · obtain ⟨hpath, hnv, hnd2, hadm⟩ := hnews e h
      refine ⟨?_, ?_, hnd2⟩
      · rw [hpath]
        exact isPath_append_last entPath hadm
      · rw [hV2eq]
        exact List.mem_append.mpr (Or.inr (List.mem_map.mpr ⟨e, h, rfl⟩))
  · rw [List.map_append]
    refine List.pairwise_append.mpr ⟨hsortedRest, ?_, ?_⟩
    · have hconst : ∀ x ∈ news.map (fun e => e.path.length), x = ent.path.length + 1 := by
        intro x hx
        rcases List.mem_map.mp hx with ⟨e2, he2, hl⟩
        rw [← hl]
        exact newlen e2 he2
      have : ∀ a ∈ news.map (fun e => e.path.length),
          ∀ b ∈ news.map (fun e => e.path.length), a ≤ b := by
        intro a ha b hb
        rw [hconst a ha, hconst b hb]
      exact List.pairwise_of_forall_mem_list this
    · intro a ha b hb
      rcases List.mem_map.mp ha with ⟨q, hq, hql⟩
      rcases List.mem_map.mp hb with ⟨e2, he2, hel⟩
      rw [← hql, ← hel, newlen e2 he2]
      exact hrestub q hq
  · intro e1 h1 e2 h2
    have hub : e2.path.length ≤ ent.path.length + 1 := by
      rcases List.mem_append.mp h2 with h | h
      · exact hrestub e2 h
      · exact le_of_eq (newlen e2 h)
    have hlb : ent.path.length ≤ e1.path.length := by
      rcases List.mem_append.mp h1 with h | h
      · exact hrestlb e1 h
      · rw [newlen e1 h]
        omega
    omega
  · intro w hw p hp
    exact bfs_min_step g avoid src dst ent.node ent.path.length rest news V V2
      inv.hsrc hVsub
      (by
        intro x hx
        rw [hV2eq] at hx
        exact List.mem_append.mp hx)
      hnewmemN newlen hminOldN
      (fun q hq => inv.hopt q (by simp [hq])) hrestub hsortedRest hprocA hcov
      p.length w p hw hp rfl
  · intro e he
    rcases List.mem_append.mp he with h | h
    · exact inv.hopt e (by simp [h])
    · intro p hp
      rw [newlen e h]
      exact hminOldN e.node (hnews e h).2.1 p hp
  · intro v hv
    rw [hV2eq] at hv
    rcases List.mem_append.mp hv with h | h
    · rcases hprocA v h with hcase | hclosed
      · rcases hcase with hveq | hvrest
        · right
          rw [hveq]
          exact hcov
        · left
          rw [List.map_append]
          exact List.mem_append.mpr (Or.inl hvrest)
      · right
        intro n hn
        exact hVsub n (hclosed n hn)
    · left
      rw [List.map_append]
      exact List.mem_append.mpr (Or.inr h)

theorem bfsLoop_spec (g : Graph) (avoid : Bool) (src dst : String)
    (hnd : InnerNodup g) :
    ∀ fuel Q V, BfsInv g avoid src dst Q V →
      Q.length + ((nodesFinset g) \ V.toFinset).card ≤ fuel →
      (∀ d2 p2 t2, bfsLoop g avoid dst fuel Q V = some (d2, p2, t2) →
        IsPath g avoid src dst p2 ∧
        ∀ q, IsPath g avoid src dst q → p2.length ≤ q.length) ∧
      (bfsLoop g avoid dst fuel Q V = none → ∀ p, ¬ IsPath g avoid src dst p) := by
  intro fuel
  induction fuel with
  | zero =>
    intro Q V inv hbound
    have hQ : Q = [] := by
      cases Q with
      | nil => rfl
      | cons e r =>
        exfalso
        simp [List.length_cons] at hbound
    subst hQ
    constructor
    · intro d2 p2 t2 h
      simp [bfsLoop] at h
    · intro _
      exact bfsInv_no_path inv
  | succ fuel ih =>
    intro Q V inv hbound
    cases Q with
    | nil =>
      constructor
      · intro d2 p2 t2 h
        simp [bfsLoop] at h
      · intro _
        exact bfsInv_no_path inv
    | cons ent rest =>
      cases hadj : dlookup g ent.node with
      | none =>
        have hcov : ∀ n, admEdgeB g avoid ent.node n = true → n ∈ V ++ [] := by
          intro n hn
          exfalso
          unfold admEdgeB get_edge at hn
          rw [hadj] at hn
          simp at hn
        have inv2 : BfsInv g avoid src dst (rest ++ []) (V ++ []) :=
          bfsInv_step g avoid src dst ent rest [] V (V ++ []) inv (by simp)
            (by simp) hcov
        rw [List.append_nil] at inv2
        rw [List.append_nil] at inv2
        have hbound2 : rest.length + ((nodesFinset g) \ V.toFinset).card ≤ fuel := by
          simp [List.length_cons] at hbound
          omega
        have hstep : bfsLoop g avoid dst (fuel + 1) (ent :: rest) V =
            bfsLoop g avoid dst fuel rest V := by
          simp [bfsLoop, hadj]
        rw [hstep]
        exact ih rest V inv2 hbound2
      | some adj =>
        have hl : ∀ q ∈ adj, dlookup adj q.1 = some q.2 := by
          intro q hq
          obtain ⟨n, e⟩ := q
          exact dlookup_eq_of_mem_nodup hq (hnd (ent.node, adj) (dlookup_mem hadj))
        have hspec := expand_spec g avoid dst ent.node ent.path ent.dist ent.threat
          adj hadj adj hl V [] inv.hdst
        cases hexp : expand avoid dst ent.path ent.dist ent.threat adj V [] with
        | inr res =>
          rw [hexp] at hspec
          obtain ⟨hres, hadm⟩ := hspec
          obtain ⟨d2, p2, t2⟩ := res
          have entPath : IsPath g avoid src ent.node ent.path := (inv.hent ent (by simp)).1
          have hstep : bfsLoop g avoid dst (fuel + 1) (ent :: rest) V =
              some (d2, p2, t2) := by
            simp [bfsLoop, hadj, hexp]
          constructor
          · intro d3 p3 t3 h
            rw [hstep] at h
            obtain ⟨hd, hp, ht⟩ : d2 = d3 ∧ p2 = p3 ∧ t2 = t3 := by
              have h1 : (d2, p2, t2) = (d3, p3, t3) := by injection h with h1
              simpa using h1
            have hp3 : p3 = p2 := hp.symm
            have hp2 : p2 = ent.path ++ [dst] := hres
            subst hp3
            rw [hp2]
            constructor
            · exact isPath_append_last entPath hadm
            · intro q hq
              have hm := inv.hmin dst inv.hdst q hq
              have heq : minLen (ent :: rest) = (ent.path.length : ℕ∞) := rfl
              rw [heq] at hm
              have := enat_succ_le hm
              simp
              omega
          · intro h
            rw [hstep] at h
            simp at h
        | inl pair =>
          obtain ⟨V2, newE⟩ := pair
          rw [hexp] at hspec
          obtain ⟨news, hacc, hV2eq, hnodup, hnews, hcov0⟩ := hspec
          have heqn : news = newE := by
            rw [List.nil_append] at hacc
            exact hacc.symm
          subst heqn
          have hcov : ∀ n, admEdgeB g avoid ent.node n = true → n ∈ V2 := by
            intro n hn
            unfold admEdgeB at hn
            cases hge : get_edge g ent.node n with
            | none =>
              rw [hge] at hn
              simp at hn
            | some e =>
              rw [hge] at hn
              have hn2 : (!(avoid && e.threat_level == "high")) = true := hn
              have hpass : (avoid && e.threat_level == "high") = false := by
                cases hb : (avoid && e.threat_level == "high") with
                | false => rfl
                | true =>
                  rw [hb] at hn2
                  simp at hn2
              have hmem : (n, e) ∈ adj := by
                unfold get_edge at hge
                rw [hadj] at hge
                exact dlookup_mem hge
              exact hcov0 (n, e) hmem hpass
          have inv2 : BfsInv g avoid src dst (rest ++ news) V2 :=
            bfsInv_step g avoid src dst ent rest news V V2 inv hV2eq hnews hcov
          have hsub : (news.map BEntry.node).toFinset ⊆ (nodesFinset g) \ V.toFinset := by
            intro x hx
            rw [List.mem_toFinset] at hx
            rcases List.mem_map.mp hx with ⟨e2, he2, hnode⟩
            obtain ⟨hpath, hnv, hnd2, hadm⟩ := hnews e2 he2
            rw [Finset.mem_sdiff]
            constructor
            · unfold admEdgeB at hadm
              cases hge : get_edge g ent.node e2.node with
              | none =>
                rw [hge] at hadm
                have hfalse : (false = true) := hadm
                exact absurd hfalse (by simp)
              | some e =>
                have hli : dlookup adj e2.node = some e := by
                  unfold get_edge at hge
                  rw [hadj] at hge
                  exact hge
                rw [← hnode]
                rw [nodesFinset, List.mem_toFinset]
                exact node_mem_nodesOf hadj (dlookup_mem hli)
            · rw [List.mem_toFinset, ← hnode]
              exact hnv
          have hcard : ((nodesFinset g) \ V2.toFinset).card =
              ((nodesFinset g) \ V.toFinset).card - news.length := by
            have h1 : V2.toFinset = V.toFinset ∪ (news.map BEntry.node).toFinset := by
              rw [hV2eq, List.toFinset_append]
            have h2 : (nodesFinset g) \ V2.toFinset =
                ((nodesFinset g) \ V.toFinset) \ (news.map BEntry.node).toFinset := by
              rw [h1]
              ext x
              simp
              tauto
            rw [h2, Finset.card_sdiff hsub, List.toFinset_card_of_nodup hnodup,
              List.length_map]
          have hle : news.length ≤ ((nodesFinset g) \ V.toFinset).card := by
            calc news.length = (news.map BEntry.node).toFinset.card := by
                  rw [List.toFinset_card_of_nodup hnodup, List.length_map]
              _ ≤ _ := Finset.card_le_card hsub
          have hbound2 : (rest ++ news).length +
              ((nodesFinset g) \ V2.toFinset).card ≤ fuel := by
            rw [List.length_append, hcard]
            simp [List.length_cons] at hbound
            omega
          have hstep : bfsLoop g avoid dst (fuel + 1) (ent :: rest) V =
              bfsLoop g avoid dst fuel (rest ++ news) V2 := by
            simp [bfsLoop, hadj, hexp]
          rw [hstep]
          exact ih (rest ++ news) V2 inv2 hbound2

theorem runBfs_spec (g : Graph) (avoid : Bool) (src dst : String)
    (hnd : InnerNodup g) (hsd : src ≠ dst) :
    (∀ d2 p2 t2, runBfs g avoid src dst = some (d2, p2, t2) →
      IsPath g avoid src dst p2 ∧ ∀ q, IsPath g avoid src dst q → p2.length ≤ q.length) ∧
    (runBfs g avoid src dst = none → ∀ p, ¬ IsPath g avoid src dst p) := by
  have inv : BfsInv g avoid src dst [⟨src, [src], 0, "low"⟩] [src] := by
    refine ⟨by simp, ?_, ?_, ?_, ?_, ?_, ?_, ?_⟩
    · intro h
      simp at h
      exact hsd h.symm
    · intro e he
      simp at he
      subst he
      exact ⟨isPath_singleton g avoid src, by simp, hsd⟩
    · simp
    · intro e1 h1 e2 h2
      simp at h1 h2
      subst h1
      subst h2
      simp
    · intro w hw p hp
      simp at hw
      have h2 : 2 ≤ p.length := isPath_length_ge_two hp (fun h => hw h.symm)
      have heq : minLen [(⟨src, [src], 0, "low"⟩ : BEntry)] = ((1 : ℕ) : ℕ∞) := rfl
      rw [heq, ← Nat.cast_add_one]
      exact_mod_cast h2
    · intro e he p hp
      simp at he
      subst he
      simpa using isPath_length_pos hp
    · intro v hv
      simp at hv
      subst hv
      left
      simp
  have hbound : (1 : ℕ) + ((nodesFinset g) \ ([src].toFinset)).card ≤
      (nodesOf g).length + 1 := by
    have h1 : ((nodesFinset g) \ ([src].toFinset)).card ≤ (nodesFinset g).card :=
      Finset.card_le_card (Finset.sdiff_subset)
    have h2 : (nodesFinset g).card ≤ (nodesOf g).length := List.toFinset_card_le _
    omega
  have hsp := bfsLoop_spec g avoid src dst hnd ((nodesOf g).length + 1)
    [⟨src, [src], 0, "low"⟩] [src] inv (by simpa using hbound)
  exact hsp

theorem fpSearch_cases (o : ConvoyOptimizer) (hav : ℚ × ℚ → ℚ × ℚ → ℚ)
    (a b : String) (avoid : Bool) :
    (∃ d2 p2 t2, runBfs o.graph avoid a b = some (d2, p2, t2) ∧
       fpSearch o hav a b avoid = (some d2, p2, t2)) ∨
    (runBfs o.graph avoid a b = none ∧ ∃ c1 c2, get_coords o a = some c1 ∧
       get_coords o b = some c2 ∧
       fpSearch o hav a b avoid = (some (hav c1 c2), [a, b], "low")) ∨
    (runBfs o.graph avoid a b = none ∧
       (get_coords o a = none ∨ get_coords o b = none) ∧
       fpSearch o hav a b avoid = (none, [], "high")) := by
  cases hbfs : runBfs o.graph avoid a b with
  | some res =>
    obtain ⟨d2, p2, t2⟩ := res
    left
    exact ⟨d2, p2, t2, rfl, by simp [fpSearch, hbfs]⟩
  | none =>
    right
    cases hc1 : get_coords o a with
    | some c1 =>
      cases hc2 : get_coords o b with
      | some c2 =>
        left
        exact ⟨rfl, c1, c2, rfl, rfl, by simp [fpSearch, hbfs, hc1, hc2]⟩
      | none =>
        right
        exact ⟨rfl, Or.inr rfl, by simp [fpSearch, hbfs, hc1, hc2]⟩
    | none =>
      right
      exact ⟨rfl, Or.inl rfl, by simp [fpSearch, hbfs, hc1]⟩

theorem find_path_cases (o : ConvoyOptimizer) (hav : ℚ × ℚ → ℚ × ℚ → ℚ)
    (a b : String) (avoid : Bool) :
    (a = b ∧ find_path_distance o hav a b avoid = (some 0, [a], "low")) ∨
    (a ≠ b ∧ (∃ e, get_edge o.graph a b = some e ∧
       (avoid && e.threat_level == "high") = false ∧
       find_path_distance o hav a b avoid = (some e.distance_km, [a, b], e.threat_level))) ∨
    (a ≠ b ∧ find_path_distance o hav a b avoid = fpSearch o hav a b avoid ∧
       (∀ e, get_edge o.graph a b = some e → (avoid && e.threat_level == "high") = true)) := by
  by_cases hab : a = b
  · left
    exact ⟨hab, by simp [find_path_distance, hab]⟩
  · right
    cases hge : get_edge o.graph a b with
    | some e =>
      cases hthreat : (avoid && e.threat_level == "high") with
      | false =>
        left
        exact ⟨hab, e, rfl, hthreat,
          by simp [find_path_distance, hab, hge, hthreat]⟩
      | true =>
        right
        refine ⟨hab, by simp [find_path_distance, hab, hge, hthreat], ?_⟩
        intro e2 he2
        cases he2
        exact hthreat
    | none =>
      right
      refine ⟨hab, by simp [find_path_distance, hab, hge], ?_⟩
      intro e2 he2
      cases he2

theorem innerNodup_graph (o : ConvoyOptimizer) : InnerNodup o.graph :=
  innerNodup_build o.routes

theorem admEdgeB_intro {g : Graph} {avoid : Bool} {u v : String} {e : EdgeData}
    (hge : get_edge g u v = some e)
    (hpass : (avoid && e.threat_level == "high") = false) :
    admEdgeB g avoid u v = true := by
  unfold admEdgeB
  rw [hge]
  show (!(avoid && e.threat_level == "high")) = true
  rw [hpass]
  rfl

theorem isPath_pair {g : Graph} {avoid : Bool} {a b : String} {e : EdgeData}
    (hge : get_edge g a b = some e)
    (hpass : (avoid && e.threat_level == "high") = false) :
    IsPath g avoid a b [a, b] := by
  refine ⟨rfl, rfl, ?_⟩
  show (admEdgeB g avoid a b && chainAdm g avoid [b]) = true
  rw [admEdgeB_intro hge hpass]
  rfl

theorem fp_min_spec (o : ConvoyOptimizer) (hav : ℚ × ℚ → ℚ × ℚ → ℚ)
    (a b : String) (avoid : Bool) (hab : a ≠ b)
    (hex : ∃ p, IsPath o.graph avoid a b p) :
    (∃ d, (find_path_distance o hav a b avoid).1 = some d) ∧
    IsPath o.graph avoid a b (find_path_distance o hav a b avoid).2.1 ∧
    ∀ q, IsPath o.graph avoid a b q →
      (find_path_distance o hav a b avoid).2.1.length ≤ q.length := by
  rcases find_path_cases o hav a b avoid with ⟨h, _⟩ | ⟨_, e, hge, hth, heq⟩ |
    ⟨_, heq, hedge⟩
  · exact absurd h hab
  · rw [heq]
    refine ⟨⟨e.distance_km, rfl⟩, isPath_pair hge hth, ?_⟩
    intro q hq
    have := isPath_length_ge_two hq hab
    simpa using this
  · rw [heq]
    rcases fpSearch_cases o hav a b avoid with ⟨d2, p2, t2, hbfs, heq2⟩ |
      ⟨hbfs, c1, c2, hc1, hc2, heq2⟩ | ⟨hbfs, _, heq2⟩
    · rw [heq2]
      have hsp := (runBfs_spec o.graph avoid a b (innerNodup_graph o) hab).1
        d2 p2 t2 hbfs
      exact ⟨⟨d2, rfl⟩, hsp.1, hsp.2⟩
    · exfalso
      rcases hex with ⟨p, hp⟩
      exact (runBfs_spec o.graph avoid a b (innerNodup_graph o) hab).2 hbfs p hp
    · exfalso
      rcases hex with ⟨p, hp⟩
      exact (runBfs_spec o.graph avoid a b (innerNodup_graph o) hab).2 hbfs p hp

theorem fp_fallback_spec (o : ConvoyOptimizer) (hav : ℚ × ℚ → ℚ × ℚ → ℚ)
    (a b : String) (avoid : Bool) (hab : a ≠ b)
    (hnopath : ∀ p, ¬ IsPath o.graph avoid a b p)
    (c1 c2 : ℚ × ℚ) (h1 : get_coords o a = some c1) (h2 : get_coords o b = some c2) :
    find_path_distance o hav a b avoid = (some (hav c1 c2), [a, b], "low") := by
  rcases find_path_cases o hav a b avoid with ⟨h, _⟩ | ⟨_, e, hge, hth, heq⟩ |
    ⟨_, heq, hedge⟩
  · exact absurd h hab
  · exact absurd (isPath_pair hge hth) (hnopath [a, b])
  · rw [heq]
    rcases fpSearch_cases o hav a b avoid with ⟨d2, p2, t2, hbfs, heq2⟩ |
      ⟨hbfs, c3, c4, hc3, hc4, heq2⟩ | ⟨hbfs, hcs, heq2⟩
    · exfalso
      have hsp := (runBfs_spec o.graph avoid a b (innerNodup_graph o) hab).1
        d2 p2 t2 hbfs
      exact hnopath p2 hsp.1
    · rw [heq2]
      rw [h1] at hc3
      rw [h2] at hc4
      cases hc3
      cases hc4
      rfl
    · exfalso
      rcases hcs with h | h
      · rw [h1] at h
        cases h
      · rw [h2] at h
        cases h

theorem fp_some_shape (o : ConvoyOptimizer) (hav : ℚ × ℚ → ℚ × ℚ → ℚ)
    (a b : String) (avoid : Bool) (d : ℚ)
    (h : (find_path_distance o hav a b avoid).1 = some d) :
    (find_path_distance o hav a b avoid).2.1 ≠ [] ∧
    (find_path_distance o hav a b avoid).2.1.getLast? = some b := by
  rcases find_path_cases o hav a b avoid with ⟨hab, heq⟩ | ⟨hab, e, hge, hth, heq⟩ |
    ⟨hab, heq, hedge⟩
  · rw [heq]
    subst hab
    exact ⟨by simp, by simp⟩
  · rw [heq]
    exact ⟨by simp, by simp⟩
  · rw [heq]
    rcases fpSearch_cases o hav a b avoid with ⟨d2, p2, t2, hbfs, heq2⟩ |
      ⟨hbfs, c1, c2, hc1, hc2, heq2⟩ | ⟨hbfs, hcs, heq2⟩
    · rw [heq2]
      have hsp := (runBfs_spec o.graph avoid a b (innerNodup_graph o) hab).1
        d2 p2 t2 hbfs
      exact ⟨isPath_ne_nil hsp.1, isPath_last hsp.1⟩
    · rw [heq2]
      exact ⟨by simp, by simp⟩
    · exfalso
      rw [heq] at h
      rw [heq2] at h
      simp at h

theorem fp_none_shape (o : ConvoyOptimizer) (hav : ℚ × ℚ → ℚ × ℚ → ℚ)
    (a b : String) (avoid : Bool)
    (h : (find_path_distance o hav a b avoid).1 = none) :
    (find_path_distance o hav a b avoid).2.1 = [] := by
  rcases find_path_cases o hav a b avoid with ⟨hab, heq⟩ | ⟨hab, e, hge, hth, heq⟩ |
    ⟨hab, heq, hedge⟩
  · rw [heq] at h
    simp at h
  · rw [heq] at h
    simp at h
  · rw [heq] at h ⊢
    rcases fpSearch_cases o hav a b avoid with ⟨d2, p2, t2, hbfs, heq2⟩ |
      ⟨hbfs, c1, c2, hc1, hc2, heq2⟩ | ⟨hbfs, hcs, heq2⟩
    · rw [heq2] at h
      simp at h
    · rw [heq2] at h
      simp at h
    · rw [heq2]

theorem symGraph_opt (o : ConvoyOptimizer) : SymGraph o.graph :=
  symGraph_build o.routes

theorem fp_hops_symm (o : ConvoyOptimizer) (hav : ℚ × ℚ → ℚ × ℚ → ℚ)
    (a b : String) (avoid : Bool)
    (hex : ∃ p, IsPath o.graph avoid a b p) :
    (find_path_distance o hav a b avoid).2.1.length =
      (find_path_distance o hav b a avoid).2.1.length := by
  by_cases hab : a = b
  · subst hab
    rfl
  · have hsym : SymGraph o.graph := symGraph_opt o
    obtain ⟨p0, hp0⟩ := hex
    have hex2 : ∃ p, IsPath o.graph avoid b a p :=
      ⟨p0.reverse, isPath_reverse hsym hp0⟩
    have h1 := fp_min_spec o hav a b avoid hab ⟨p0, hp0⟩
    have h2 := fp_min_spec o hav b a avoid (Ne.symm hab) hex2
    have hle1 : (find_path_distance o hav a b avoid).2.1.length ≤
        (find_path_distance o hav b a avoid).2.1.length := by
      have := h1.2.2 (find_path_distance o hav b a avoid).2.1.reverse
        (isPath_reverse hsym h2.2.1)
      simpa using this
    have hle2 : (find_path_distance o hav b a avoid).2.1.length ≤
        (find_path_distance o hav a b avoid).2.1.length := by
      have := h2.2.2 (find_path_distance o hav a b avoid).2.1.reverse
        (isPath_reverse hsym h1.2.1)
      simpa using this
    omega

/-! ### Greedy-assignment invariants -/

/-- Facts established by the candidate scan about the chosen best
candidate (the eligibility checks of optimizer.py:304-343). -/
structure GoodCand (o : ConvoyOptimizer) (hav : ℚ × ℚ → ℚ × ℚ → ℚ) (avoid : Bool)
    (sp current mode : String) (cap maxR totD totQ : ℚ) (b : BestCand) : Prop where
  hrow : ∃ row, lookupDest o b.dest = some row ∧
    ((mode = "AIR" : Bool) && !row.has_airstrip) = false ∧
    totQ + get_demand row ≤ cap
  hfp : find_path_distance o hav current b.dest avoid = (some b.dist, b.path, b.threat)
  hback : ∃ db, (find_path_distance o hav b.dest sp avoid).1 = some db ∧
    totD + b.dist + db ≤ maxR

theorem scanStep_cases (o : ConvoyOptimizer) (hav : ℚ × ℚ → ℚ × ℚ → ℚ) (avoid : Bool)
    (sp current mode : String) (cap maxR totD totQ : ℚ)
    (best : Option BestCand) (did : String) :
    scanStep o hav avoid sp current mode cap maxR totD totQ best did = best ∨
    ∃ b, scanStep o hav avoid sp current mode cap maxR totD totQ best did = some b ∧
      b.dest = did ∧ GoodCand o hav avoid sp current mode cap maxR totD totQ b := by
  unfold scanStep
  cases hrow : lookupDest o did with
  | none => left; rfl
  | some row =>
    by_cases hair : ((mode = "AIR" : Bool) && !row.has_airstrip) = true
    · left
      simp [hair]
    · have hair2 : ((mode = "AIR" : Bool) && !row.has_airstrip) = false :=
        Bool.eq_false_iff.mpr hair
      by_cases hcap : totQ + get_demand row > cap
      · left
        simp [hair2, hcap]
      · cases hfp : find_path_distance o hav current did avoid with
        | mk dout rest =>
          obtain ⟨pout, thr⟩ := rest
          cases dout with
          | none => left; simp [hair2, hcap, hfp]
          | some dv =>
            cases hbk : (find_path_distance o hav did sp avoid).1 with
            | none => left; simp [hair2, hcap, hfp, hbk]
            | some db =>
              by_cases hrange : totD + dv + db > maxR
              · left
                simp [hair2, hcap, hfp, hbk, hrange]
              · by_cases hbest : ltBest dv best = true
                · right
                  refine ⟨⟨did, dv, pout, thr⟩, ?_, rfl, ?_⟩
                  · simp [hair2, hcap, hfp, hbk, hrange, hbest]
                  · exact ⟨⟨row, hrow, hair2, not_lt.mp hcap⟩, hfp,
                      ⟨db, hbk, not_lt.mp hrange⟩⟩
                · left
                  have hbest2 : ltBest dv best = false := Bool.eq_false_iff.mpr hbest
                  simp [hair2, hcap, hfp, hbk, hrange, hbest2]

theorem scanFold_spec (o : ConvoyOptimizer) (hav : ℚ × ℚ → ℚ × ℚ → ℚ) (avoid : Bool)
    (sp current mode : String) (cap maxR totD totQ : ℚ) :
    ∀ (l : List String) (init : Option BestCand) (b : BestCand),
    l.foldl (scanStep o hav avoid sp current mode cap maxR totD totQ) init = some b →
      (init = some b) ∨ (b.dest ∈ l ∧
        GoodCand o hav avoid sp current mode cap maxR totD totQ b) := by
  intro l
  induction l with
  | nil =>
    intro init b hb
    left
    simpa using hb
  | cons x xs ih =>
    intro init b hb
    simp only [List.foldl_cons] at hb
    rcases scanStep_cases o hav avoid sp current mode cap maxR totD totQ init x with
      hcase | ⟨b1, hstep, hdest, hgood⟩
    · rw [hcase] at hb
      rcases ih init b hb with h | h
      · left
        exact h
      · right
        exact ⟨List.mem_cons_of_mem _ h.1, h.2⟩
    · rw [hstep] at hb
      rcases ih (some b1) b hb with h | h
      · right
        have hbb : b = b1 := by
          injection h with h2
          rw [h2]
        subst hbb
        rw [← hdest]
        exact ⟨by simp, hgood⟩
      · right
        exact ⟨List.mem_cons_of_mem _ h.1, h.2⟩

theorem scanBest_spec (o : ConvoyOptimizer) (hav : ℚ × ℚ → ℚ × ℚ → ℚ) (avoid : Bool)
    (sp current mode : String) (cap maxR totD totQ : ℚ) (l : List String) (b : BestCand)
    (h : scanBest o hav avoid sp current mode cap maxR totD totQ l = some b) :
    b.dest ∈ l ∧ GoodCand o hav avoid sp current mode cap maxR totD totQ b := by
  unfold scanBest at h
  rcases scanFold_spec o hav avoid sp current mode cap maxR totD totQ l none b h with
    h2 | h2
  · exact absurd h2 (by simp)
  · exact h2

theorem fp_some_head (o : ConvoyOptimizer) (hav : ℚ × ℚ → ℚ × ℚ → ℚ)
    (a b : String) (avoid : Bool) (d : ℚ)
    (h : (find_path_distance o hav a b avoid).1 = some d) :
    (find_path_distance o hav a b avoid).2.1.head? = some a := by
  rcases find_path_cases o hav a b avoid with ⟨hab, heq⟩ | ⟨hab, e, hge, hth, heq⟩ |
    ⟨hab, heq, hedge⟩
  · rw [heq]
    subst hab
    rfl
  · rw [heq]
    rfl
  · rw [heq]
    rcases fpSearch_cases o hav a b avoid with ⟨d2, p2, t2, hbfs, heq2⟩ |
      ⟨hbfs, c1, c2, hc1, hc2, heq2⟩ | ⟨hbfs, hcs, heq2⟩
    · rw [heq2]
      exact isPath_head ((runBfs_spec o.graph avoid a b (innerNodup_graph o) hab).1
        d2 p2 t2 hbfs).1
    · rw [heq2]
      rfl
    · exfalso
      rw [heq, heq2] at h
      simp at h

theorem head_append_pres (route l : List String) (sp : String)
    (h : route.head? = some sp) : (route ++ l).head? = some sp := by
  have hne : route ≠ [] := by
    intro h2
    rw [h2] at h
    simp at h
  rw [List.head?_append_of_ne_nil _ hne]
  exact h

theorem route_last_update (o : ConvoyOptimizer) (hav : ℚ × ℚ → ℚ × ℚ → ℚ)
    (avoid : Bool) (a b : String) (route : List String) (d : ℚ)
    (hfp : (find_path_distance o hav a b avoid).1 = some d)
    (hlast : route.getLast? = some a) :
    (route ++ (find_path_distance o hav a b avoid).2.1.drop 1).getLast? = some b := by
  obtain ⟨hne, hl⟩ := fp_some_shape o hav a b avoid d hfp
  have hh := fp_some_head o hav a b avoid d hfp
  cases hp : (find_path_distance o hav a b avoid).2.1 with
  | nil => exact absurd hp hne
  | cons x rest =>
    rw [hp] at hl hh
    cases rest with
    | nil =>
      have hxa : x = a := by simpa using hh
      have hxb : x = b := by simpa using hl
      have hab2 : a = b := hxa ▸ hxb
      simp only [List.drop_one, List.tail_cons, List.append_nil]
      rw [hlast, hab2]
    | cons y ys =>
      simp only [List.drop_one, List.tail_cons]
      rw [List.getLast?_append_of_ne_nil _ (by simp : (y :: ys) ≠ [])]
      rw [← hl]
      simp

/-- Postconditions of a produced `ConvoyAssignment`, used by the claims
about `_assign_vehicle_route`. -/
structure AssignPost (o : ConvoyOptimizer) (v : Vehicle) (sp : String)
    (ids : List String) (a : ConvoyAssignment) : Prop where
  hne : a.destinations ≠ []
  hdem : a.total_demand_tons ≤ v.capacity_tons
  hdist : ∃ t, a.total_distance_km = round1 t ∧ t ≤ v.max_range_km
  hhead : a.route_sequence.head? = some sp
  hlast : a.route_sequence.getLast? = some sp
  hair : v.mode = "AIR" → ∀ x ∈ a.destinations,
    ∃ drow, lookupDest o x = some drow ∧ drow.has_airstrip = true
  hsub : ∀ x ∈ a.destinations, x ∈ ids
  hmode : a.vehicle_mode = v.mode
  hsp : a.supply_point = sp

theorem finishAssign_spec (o : ConvoyOptimizer) (hav : ℚ × ℚ → ℚ × ℚ → ℚ)
    (avoid : Bool) (v : Vehicle) (sp : String) (route assigned : List String)
    (totD totQ : ℚ) (maxT current : String) (ids : List String)
    (hhead : route.head? = some sp)
    (hlastr : route.getLast? = some current)
    (hdem : assigned ≠ [] → totQ ≤ v.capacity_tons)
    (hrange : assigned ≠ [] → ∃ db,
      (find_path_distance o hav current sp avoid).1 = some db ∧
      totD + db ≤ v.max_range_km)
    (hair : v.mode = "AIR" → ∀ x ∈ assigned,
      ∃ drow, lookupDest o x = some drow ∧ drow.has_airstrip = true)
    (hsub : ∀ x ∈ assigned, x ∈ ids) :
    ∀ a, finishAssign o hav avoid v sp route assigned totD totQ maxT current = some a →
      AssignPost o v sp ids a := by
  intro a ha
  unfold finishAssign at ha
  by_cases hempty : assigned = []
  · rw [if_pos hempty] at ha
    exact absurd ha (by simp)
  · rw [if_neg hempty] at ha
    obtain ⟨db, hdb, hdbr⟩ := hrange hempty
    have hpne : (find_path_distance o hav current sp avoid).2.1 ≠ [] :=
      (fp_some_shape o hav current sp avoid db hdb).1
    simp only [hdb, if_pos hpne, Option.some.injEq] at ha
    subst ha
    refine ⟨hempty, hdem hempty, ⟨totD + db, rfl, hdbr⟩, ?_, ?_, hair, hsub, rfl, rfl⟩
    · exact head_append_pres route _ sp hhead
    · exact route_last_update o hav avoid current sp route db hdb hlastr

theorem assignLoop_spec (o : ConvoyOptimizer) (hav : ℚ × ℚ → ℚ × ℚ → ℚ)
    (avoid : Bool) (v : Vehicle) (sp : String) (ids : List String) :
    ∀ (fuel : Nat) (remaining route assigned : List String) (totD totQ : ℚ)
      (maxT current : String),
    route.head? = some sp →
    route.getLast? = some current →
    (assigned ≠ [] → totQ ≤ v.capacity_tons) →
    (assigned ≠ [] → ∃ db, (find_path_distance o hav current sp avoid).1 = some db ∧
      totD + db ≤ v.max_range_km) →
    (v.mode = "AIR" → ∀ x ∈ assigned, ∃ drow, lookupDest o x = some drow ∧
      drow.has_airstrip = true) →
    (∀ x ∈ assigned, x ∈ ids) →
    (∀ x ∈ remaining, x ∈ ids) →
    ∀ a, assignLoop o hav avoid v sp fuel remaining route assigned totD totQ maxT
        current = some a →
      AssignPost o v sp ids a := by
  intro fuel
  induction fuel with
  | zero =>
    intro remaining route assigned totD totQ maxT current hhead hlastr hdem hrange
      hair hsub hrem a ha
    exact finishAssign_spec o hav avoid v sp route assigned totD totQ maxT current ids
      hhead hlastr hdem hrange hair hsub a ha
  | succ fuel ih =>
    intro remaining route assigned totD totQ maxT current hhead hlastr hdem hrange
      hair hsub hrem a ha
    by_cases hre : remaining = []
    · rw [assignLoop, if_pos hre] at ha
      exact finishAssign_spec o hav avoid v sp route assigned totD totQ maxT current ids
        hhead hlastr hdem hrange hair hsub a ha
    · rw [assignLoop, if_neg hre] at ha
      cases hscan : scanBest o hav avoid sp current v.mode v.capacity_tons
          v.max_range_km totD totQ remaining with
      | none =>
        rw [hscan] at ha
        exact finishAssign_spec o hav avoid v sp route assigned totD totQ maxT current
          ids hhead hlastr hdem hrange hair hsub a ha
      | some b =>
        rw [hscan] at ha
        obtain ⟨hmem, hgood⟩ := scanBest_spec o hav avoid sp current v.mode
          v.capacity_tons v.max_range_km totD totQ remaining b hscan
        obtain ⟨row, hrow, hairb, hcap⟩ := hgood.hrow
        obtain ⟨db, hdb, hdbr⟩ := hgood.hback
        have hfp1 : (find_path_distance o hav current b.dest avoid).1 = some b.dist := by
          rw [hgood.hfp]
        have hfp2 : (find_path_distance o hav current b.dest avoid).2.1 = b.path := by
          rw [hgood.hfp]
        simp only [hrow] at ha
        refine ih (remaining.erase b.dest) (route ++ b.path.drop 1)
          (assigned ++ [b.dest]) (totD + b.dist) (totQ + get_demand row)
          (bumpThreat maxT b.threat) b.dest ?_ ?_ ?_ ?_ ?_ ?_ ?_ a ha
        · exact head_append_pres route _ sp hhead
        · rw [← hfp2]
          exact route_last_update o hav avoid current b.dest route b.dist hfp1 hlastr
        · intro _
          exact hcap
        · intro _
          exact ⟨db, hdb, by linarith⟩
        · intro hm x hx
          rcases List.mem_append.mp hx with h | h
          · exact hair hm x h
          · simp at h
            subst h
            refine ⟨row, hrow, ?_⟩
            rw [hm] at hairb
            simp at hairb
            exact hairb
        · intro x hx
          rcases List.mem_append.mp hx with h | h
          · exact hsub x h
          · simp at h
            subst h
            exact hrem b.dest hmem
        · intro x hx
          exact hrem x (List.mem_of_mem_erase hx)

theorem assign_spec (o : ConvoyOptimizer) (hav : ℚ × ℚ → ℚ × ℚ → ℚ) (v : Vehicle)
    (sp : String) (ids : List String) (avoid : Bool) (a : ConvoyAssignment)
    (h : assign_vehicle_route o hav v sp ids avoid = some a) :
    AssignPost o v sp ids a := by
  have hcore : ∀ a2, assignCore o hav v sp ids avoid = some a2 →
      AssignPost o v sp ids a2 := by
    intro a2 h2
    unfold assignCore at h2
    have hpost := assignLoop_spec o hav avoid v sp (pySet ids) (pySet ids).length
      (pySet ids) [sp] [] 0 0 "low" sp rfl rfl
      (by intro h3; exact absurd rfl h3)
      (by intro h3; exact absurd rfl h3)
      (by intro _ x hx; simp at hx)
      (by intro x hx; simp at hx)
      (by intro x hx; exact hx) a2 h2
    refine ⟨hpost.hne, hpost.hdem, hpost.hdist, hpost.hhead, hpost.hlast, hpost.hair,
      ?_, hpost.hmode, hpost.hsp⟩
    intro x hx
    exact (mem_pySet x ids).mp (hpost.hsub x hx)
  unfold assign_vehicle_route at h
  by_cases hmode : v.mode = "AIR"
  · rw [if_pos hmode] at h
    cases hsp : lookupSP o sp with
    | some s =>
      rw [hsp] at h
      by_cases hairs : s.has_airstrip
      · simp only [hairs, if_pos] at h
        exact hcore a h
      · simp only [Bool.not_eq_true] at hairs
        simp only [hairs] at h
        simp at h
    | none =>
      rw [hsp] at h
      exact hcore a h
  · rw [if_neg hmode] at h
    exact hcore a h

theorem assign_air_origin (o : ConvoyOptimizer) (hav : ℚ × ℚ → ℚ × ℚ → ℚ)
    (v : Vehicle) (sp : String) (ids : List String) (avoid : Bool) (s : SupplyPoint)
    (hmode : v.mode = "AIR") (hsp : lookupSP o sp = some s)
    (hairs : s.has_airstrip = false) :
    assign_vehicle_route o hav v sp ids avoid = none := by
  unfold assign_vehicle_route
  rw [if_pos hmode, hsp]
  simp [hairs]

theorem assign_skips_origin_check (o : ConvoyOptimizer) (hav : ℚ × ℚ → ℚ × ℚ → ℚ)
    (v : Vehicle) (sp : String) (ids : List String) (avoid : Bool)
    (hsp : lookupSP o sp = none) :
    assign_vehicle_route o hav v sp ids avoid = assignCore o hav v sp ids avoid := by
  unfold assign_vehicle_route
  by_cases hmode : v.mode = "AIR"
  · rw [if_pos hmode, hsp]
  · rw [if_neg hmode]

/-! ### Orchestration lemmas -/

theorem optLoop_mem (o : ConvoyOptimizer) (hav : ℚ × ℚ → ℚ × ℚ → ℚ) (avoid : Bool)
    (sp : String) :
    ∀ (vs : List Vehicle) (rem : List String) (acc : List ConvoyAssignment)
      (a : ConvoyAssignment), a ∈ optLoop o hav avoid sp vs rem acc →
      a ∈ acc ∨ ∃ v rem2, v ∈ vs ∧
        assign_vehicle_route o hav v sp rem2 avoid = some a := by
  intro vs
  induction vs with
  | nil =>
    intro rem acc a ha
    left
    simpa [optLoop] using ha
  | cons v vs ih =>
    intro rem acc a ha
    rw [optLoop] at ha
    by_cases hre : rem = []
    · rw [if_pos hre] at ha
      left
      exact ha
    · rw [if_neg hre] at ha
      cases hassign : assign_vehicle_route o hav v sp rem avoid with
      | none =>
        rw [hassign] at ha
        rcases ih rem acc a ha with h | ⟨v2, rem2, hv2, h2⟩
        · left; exact h
        · right; exact ⟨v2, rem2, List.mem_cons_of_mem _ hv2, h2⟩
      | some a2 =>
        simp only [hassign] at ha
        by_cases hemp : a2.destinations = []
        · rw [if_pos hemp] at ha
          rcases ih rem acc a ha with h | ⟨v2, rem2, hv2, h2⟩
          · left; exact h
          · right; exact ⟨v2, rem2, List.mem_cons_of_mem _ hv2, h2⟩
        · rw [if_neg hemp] at ha
          rcases ih _ _ a ha with h | ⟨v2, rem2, hv2, h2⟩
          · rcases List.mem_append.mp h with h3 | h3
            · left; exact h3
            · right
              simp at h3
              subst h3
              exact ⟨v, rem, by simp, hassign⟩
          · right; exact ⟨v2, rem2, List.mem_cons_of_mem _ hv2, h2⟩

theorem optLoop_disjoint (o : ConvoyOptimizer) (hav : ℚ × ℚ → ℚ × ℚ → ℚ)
    (avoid : Bool) (sp : String) :
    ∀ (vs : List Vehicle) (rem : List String) (acc : List ConvoyAssignment),
    List.Pairwise (fun a b => ∀ x ∈ a.destinations, x ∉ b.destinations) acc →
    (∀ a ∈ acc, ∀ x ∈ a.destinations, x ∉ rem) →
    List.Pairwise (fun a b => ∀ x ∈ a.destinations, x ∉ b.destinations)
      (optLoop o hav avoid sp vs rem acc) := by
  intro vs
  induction vs with
  | nil =>
    intro rem acc hacc hdisj
    simpa [optLoop] using hacc
  | cons v vs ih =>
    intro rem acc hacc hdisj
    rw [optLoop]
    by_cases hre : rem = []
    · rw [if_pos hre]
      exact hacc
    · rw [if_neg hre]
      cases hassign : assign_vehicle_route o hav v sp rem avoid with
      | none => exact ih rem acc hacc hdisj
      | some a2 =>
        simp only
        by_cases hemp : a2.destinations = []
        · rw [if_pos hemp]
          exact ih rem acc hacc hdisj
        · rw [if_neg hemp]
          have hsub2 : ∀ x ∈ a2.destinations, x ∈ rem :=
            (assign_spec o hav v sp rem avoid a2 hassign).hsub
          refine ih _ _ ?_ ?_
          · refine List.pairwise_append.mpr ⟨hacc, by simp, ?_⟩
            intro b hb c hc
            simp at hc
            subst hc
            intro x hxb
            intro hxc
            exact hdisj b hb x hxb (hsub2 x hxc)
          · intro b hb x hxb hxrem
            rcases List.mem_append.mp hb with h | h
            · exact hdisj b h x hxb (List.mem_of_mem_filter hxrem)
            · simp at h
              subst h
              rcases List.mem_filter.mp hxrem with ⟨_, hxf⟩
              simp at hxf
              exact hxf hxb

theorem optimize_mem (o : ConvoyOptimizer) (hav : ℚ × ℚ → ℚ × ℚ → ℚ) (sp : String)
    (avail : List String) (avoid : Bool) (a : ConvoyAssignment)
    (h : a ∈ optimize_routes o hav sp avail avoid) :
    ∃ v rem, assign_vehicle_route o hav v sp rem avoid = some a := by
  simp only [optimize_routes] at h
  split at h
  · simp at h
  · split at h
    · simp at h
    · simp only [optimizeFrom] at h
      split at h
      · simp at h
      · rcases optLoop_mem o hav avoid sp _ _ _ a h with h2 | ⟨v, rem2, _, h2⟩
        · simp at h2
        · exact ⟨v, rem2, h2⟩

/-! ### Priority irrelevance

Two destination rows agree up to priority when every column except
`priority` / `priority_score` is equal.  Engines over tables related
row-wise this way behave identically, because the only use of the
priority score (the sort at optimizer.py:245) is erased by the unordered
`set(...)` at optimizer.py:248. -/

/-- Row equality except for the `priority` and `priority_score` columns. -/
def PriAgree (d d2 : Destination) : Prop :=
  d.dest_id = d2.dest_id ∧ d.lat = d2.lat ∧ d.lon = d2.lon ∧
  d.total_demand_tons = d2.total_demand_tons ∧ d.has_airstrip = d2.has_airstrip

/-- Input bundles identical except for destination priorities. -/
structure OptAgree (o1 o2 : ConvoyOptimizer) : Prop where
  hsp : o1.supply_points = o2.supply_points
  hveh : o1.vehicles = o2.vehicles
  hroutes : o1.routes = o2.routes
  hdest : List.Forall₂ PriAgree o1.destinations o2.destinations

theorem graph_congr {o1 o2 : ConvoyOptimizer} (h : OptAgree o1 o2) :
    o1.graph = o2.graph := by
  unfold ConvoyOptimizer.graph
  rw [h.hroutes]

theorem lookupSP_congr {o1 o2 : ConvoyOptimizer} (h : OptAgree o1 o2)
    (x : String) : lookupSP o1 x = lookupSP o2 x := by
  unfold lookupSP
  rw [h.hsp]

theorem find?_rel : ∀ {l1 l2 : List Destination}, List.Forall₂ PriAgree l1 l2 →
    ∀ x : String,
    (l1.find? (fun d => d.dest_id = x) = none ∧
      l2.find? (fun d => d.dest_id = x) = none) ∨
    ∃ d1 d2, l1.find? (fun d => d.dest_id = x) = some d1 ∧
      l2.find? (fun d => d.dest_id = x) = some d2 ∧ PriAgree d1 d2 := by
  intro l1 l2 hrel
  induction hrel with
  | nil =>
    intro x
    left
    simp
  | cons ha htail ih =>
    intro x
    rename_i a b l1 l2
    by_cases hid : a.dest_id = x
    · right
      refine ⟨a, b, ?_, ?_, ha⟩
      · simp [List.find?_cons, hid]
      · have hid2 : b.dest_id = x := ha.1 ▸ hid
        simp [List.find?_cons, hid2]
    · have hid2 : ¬(b.dest_id = x) := by
        rw [← ha.1]
        exact hid
      have e1 : List.find? (fun d => d.dest_id = x) (a :: l1) =
          List.find? (fun d => d.dest_id = x) l1 := by
        simp [List.find?_cons, hid]
      have e2 : List.find? (fun d => d.dest_id = x) (b :: l2) =
          List.find? (fun d => d.dest_id = x) l2 := by
        simp [List.find?_cons, hid2]
      rw [e1, e2]
      exact ih x

theorem lookupDest_rel {o1 o2 : ConvoyOptimizer} (h : OptAgree o1 o2)
    (x : String) :
    (lookupDest o1 x = none ∧ lookupDest o2 x = none) ∨
    ∃ d1 d2, lookupDest o1 x = some d1 ∧ lookupDest o2 x = some d2 ∧
      PriAgree d1 d2 := find?_rel h.hdest x

theorem get_coords_congr {o1 o2 : ConvoyOptimizer} (h : OptAgree o1 o2)
    (x : String) : get_coords o1 x = get_coords o2 x := by
  unfold get_coords
  rw [lookupSP_congr h x]
  cases lookupSP o2 x with
  | some s => rfl
  | none =>
    rcases lookupDest_rel h x with ⟨h1, h2⟩ | ⟨d1, d2, h1, h2, hagree⟩
    · rw [h1, h2]
    · rw [h1, h2]
      simp [hagree.2.1, hagree.2.2.1]

theorem fp_congr {o1 o2 : ConvoyOptimizer} (h : OptAgree o1 o2)
    (hav : ℚ × ℚ → ℚ × ℚ → ℚ) (a b : String) (avoid : Bool) :
    find_path_distance o1 hav a b avoid = find_path_distance o2 hav a b avoid := by
  have hs : fpSearch o1 hav a b avoid = fpSearch o2 hav a b avoid := by
    unfold fpSearch
    rw [graph_congr h, get_coords_congr h a, get_coords_congr h b]
  unfold find_path_distance
  rw [graph_congr h, hs]

theorem scanStep_congr {o1 o2 : ConvoyOptimizer} (h : OptAgree o1 o2)
    (hav : ℚ × ℚ → ℚ × ℚ → ℚ) (avoid : Bool) (sp current mode : String)
    (cap maxR totD totQ : ℚ) (best : Option BestCand) (did : String) :
    scanStep o1 hav avoid sp current mode cap maxR totD totQ best did =
    scanStep o2 hav avoid sp current mode cap maxR totD totQ best did := by
  unfold scanStep
  rcases lookupDest_rel h did with ⟨h1, h2⟩ | ⟨d1, d2, h1, h2, ha⟩
  · rw [h1, h2]
  · simp only [h1, h2]
    obtain ⟨hid, hlat, hlon, hdm, hairs⟩ := ha
    simp only [get_demand, hdm, hairs, fp_congr h hav]

theorem scanBest_congr {o1 o2 : ConvoyOptimizer} (h : OptAgree o1 o2)
    (hav : ℚ × ℚ → ℚ × ℚ → ℚ) (avoid : Bool) (sp current mode : String)
    (cap maxR totD totQ : ℚ) (l : List String) :
    scanBest o1 hav avoid sp current mode cap maxR totD totQ l =
    scanBest o2 hav avoid sp current mode cap maxR totD totQ l := by
  unfold scanBest
  have hf : scanStep o1 hav avoid sp current mode cap maxR totD totQ =
      scanStep o2 hav avoid sp current mode cap maxR totD totQ := by
    funext best did
    exact scanStep_congr h hav avoid sp current mode cap maxR totD totQ best did
  rw [hf]

theorem finishAssign_congr {o1 o2 : ConvoyOptimizer} (h : OptAgree o1 o2)
    (hav : ℚ × ℚ → ℚ × ℚ → ℚ) (avoid : Bool) (v : Vehicle) (sp : String)
    (route assigned : List String) (totD totQ : ℚ) (maxT current : String) :
    finishAssign o1 hav avoid v sp route assigned totD totQ maxT current =
    finishAssign o2 hav avoid v sp route assigned totD totQ maxT current := by
  simp only [finishAssign, fp_congr h hav, get_coords_congr h]

theorem assignLoop_congr {o1 o2 : ConvoyOptimizer} (h : OptAgree o1 o2)
    (hav : ℚ × ℚ → ℚ × ℚ → ℚ) (avoid : Bool) (v : Vehicle) (sp : String) :
    ∀ (fuel : Nat) (remaining route assigned : List String) (totD totQ : ℚ)
      (maxT current : String),
    assignLoop o1 hav avoid v sp fuel remaining route assigned totD totQ maxT current =
    assignLoop o2 hav avoid v sp fuel remaining route assigned totD totQ maxT current := by
  intro fuel
  induction fuel with
  | zero =>
    intro remaining route assigned totD totQ maxT current
    exact finishAssign_congr h hav avoid v sp route assigned totD totQ maxT current
  | succ fuel ih =>
    intro remaining route assigned totD totQ maxT current
    rw [assignLoop, assignLoop]
    by_cases hre : remaining = []
    · rw [if_pos hre, if_pos hre]
      exact finishAssign_congr h hav avoid v sp route assigned totD totQ maxT current
    · rw [if_neg hre, if_neg hre]
      rw [← scanBest_congr h hav avoid sp current v.mode v.capacity_tons
        v.max_range_km totD totQ remaining]
      cases hscan : scanBest o1 hav avoid sp current v.mode v.capacity_tons
          v.max_range_km totD totQ remaining with
      | none =>
        exact finishAssign_congr h hav avoid v sp route assigned totD totQ maxT current
      | some b =>
        rcases lookupDest_rel h b.dest with ⟨h1, h2⟩ | ⟨d1, d2, h1, h2, hagree⟩
        · simp only [h1, h2]
          exact finishAssign_congr h hav avoid v sp route assigned totD totQ maxT current
        · simp only [h1, h2]
          rw [show get_demand d1 = get_demand d2 from hagree.2.2.2.1]
          exact ih (remaining.erase b.dest) (route ++ b.path.drop 1)
            (assigned ++ [b.dest]) (totD + b.dist) (totQ + get_demand d2)
            (bumpThreat maxT b.threat) b.dest

theorem assign_congr {o1 o2 : ConvoyOptimizer} (h : OptAgree o1 o2)
    (hav : ℚ × ℚ → ℚ × ℚ → ℚ) (v : Vehicle) (sp : String) (ids : List String)
    (avoid : Bool) :
    assign_vehicle_route o1 hav v sp ids avoid =
    assign_vehicle_route o2 hav v sp ids avoid := by
  have hcore : assignCore o1 hav v sp ids avoid = assignCore o2 hav v sp ids avoid := by
    unfold assignCore
    exact assignLoop_congr h hav avoid v sp (pySet ids).length (pySet ids) [sp] []
      0 0 "low" sp
  unfold assign_vehicle_route
  rw [lookupSP_congr h sp, hcore]

theorem optLoop_congr {o1 o2 : ConvoyOptimizer} (h : OptAgree o1 o2)
    (hav : ℚ × ℚ → ℚ × ℚ → ℚ) (avoid : Bool) (sp : String) :
    ∀ (vs : List Vehicle) (rem : List String) (acc : List ConvoyAssignment),
    optLoop o1 hav avoid sp vs rem acc = optLoop o2 hav avoid sp vs rem acc := by
  intro vs
  induction vs with
  | nil =>
    intro rem acc
    rfl
  | cons v vs ih =>
    intro rem acc
    rw [optLoop, optLoop]
    by_cases hre : rem = []
    · rw [if_pos hre, if_pos hre]
    · rw [if_neg hre, if_neg hre]
      rw [← assign_congr h hav v sp rem avoid]
      cases assign_vehicle_route o1 hav v sp rem avoid with
      | none => exact ih rem acc
      | some a2 =>
        by_cases hemp : a2.destinations = []
        · simp only [hemp, if_pos]
          exact ih rem acc
        · simp only [if_neg hemp]
          exact ih _ _

theorem filter_map_id_congr : ∀ {l1 l2 : List Destination},
    List.Forall₂ PriAgree l1 l2 → ∀ (p1 p2 : Destination → Bool),
    (∀ d1 d2, PriAgree d1 d2 → p1 d1 = p2 d2) →
    (l1.filter p1).map (fun d => d.dest_id) =
    (l2.filter p2).map (fun d => d.dest_id) := by
  intro l1 l2 hrel
  induction hrel with
  | nil =>
    intro p1 p2 hp
    rfl
  | cons ha htail ih =>
    intro p1 p2 hp
    rename_i a b l1 l2
    have hcond : p1 a = p2 b := hp a b ha
    cases hc : p1 a with
    | false =>
      have hc2 : p2 b = false := hcond ▸ hc
      simp [List.filter_cons, hc, hc2, ih p1 p2 hp]
    | true =>
      have hc2 : p2 b = true := hcond ▸ hc
      simp [List.filter_cons, hc, hc2, ha.1, ih p1 p2 hp]

theorem pySet_sortByPriority (l : List Destination) :
    pySet ((sortByPriority l).map (fun d => d.dest_id)) =
    pySet (l.map (fun d => d.dest_id)) :=
  pySet_eq_of_perm ((List.mergeSort_perm l _).map _)

theorem optimizeFrom_congr {o1 o2 : ConvoyOptimizer} (h : OptAgree o1 o2)
    (hav : ℚ × ℚ → ℚ × ℚ → ℚ) (sp : String) (vehicles : List Vehicle)
    (spc : ℚ × ℚ) (avoid : Bool) :
    optimizeFrom o1 hav sp vehicles spc avoid =
    optimizeFrom o2 hav sp vehicles spc avoid := by
  simp only [optimizeFrom]
  have hreach : (o1.destinations.filter (fun d =>
      hav spc (d.lat, d.lon) * 2 ≤ maxOf (vehicles.map (fun v => v.max_range_km)))).map
        (fun d => d.dest_id) =
      (o2.destinations.filter (fun d =>
      hav spc (d.lat, d.lon) * 2 ≤ maxOf (vehicles.map (fun v => v.max_range_km)))).map
        (fun d => d.dest_id) := by
    refine filter_map_id_congr h.hdest _ _ ?_
    intro d1 d2 hd
    obtain ⟨hid, hlat, hlon, _, _⟩ := hd
    simp [hlat, hlon]
  rw [hreach]
  generalize (o2.destinations.filter (fun d =>
      hav spc (d.lat, d.lon) * 2 ≤ maxOf (vehicles.map (fun v => v.max_range_km)))).map
        (fun d => d.dest_id) = R
  by_cases hre : R = []
  · simp [hre]
  · rw [if_neg hre, if_neg hre]
    have hrem : pySet ((sortByPriority (o1.destinations.filter
        (fun d => d.dest_id ∈ R))).map (fun d => d.dest_id)) =
        pySet ((sortByPriority (o2.destinations.filter
        (fun d => d.dest_id ∈ R))).map (fun d => d.dest_id)) := by
      rw [pySet_sortByPriority, pySet_sortByPriority]
      congr 1
      refine filter_map_id_congr h.hdest _ _ ?_
      intro d1 d2 hd
      simp [hd.1]
    rw [hrem]
    exact optLoop_congr h hav avoid sp vehicles _ []

theorem optimize_routes_congr {o1 o2 : ConvoyOptimizer} (h : OptAgree o1 o2)
    (hav : ℚ × ℚ → ℚ × ℚ → ℚ) (sp : String) (avail : List String) (avoid : Bool) :
    optimize_routes o1 hav sp avail avoid = optimize_routes o2 hav sp avail avoid := by
  simp only [optimize_routes]
  rw [h.hveh, get_coords_congr h sp]
  by_cases hv : o2.vehicles.filter (fun v => v.vehicle_id ∈ avail) = []
  · simp [hv]
  · rw [if_neg hv, if_neg hv]
    cases get_coords o2 sp with
    | none => rfl
    | some spc => exact optimizeFrom_congr h hav sp _ spc avoid

/-! ### Concrete examples used by the claim witnesses -/

/-- Distance function used in the examples (the claims hold for every
`hav`, so the constant-zero function suffices). -/
def exHav : ℚ × ℚ → ℚ × ℚ → ℚ := fun _ _ => 0

/-- Road segments of the two-corridor example: two hop-2 routes from A
to B with total lengths 2 and 10. -/
def routesC2 : List RouteSeg :=
  [⟨"A", "X", 1, "low", 1, "good"⟩,
   ⟨"Y", "B", 5, "low", 5, "good"⟩,
   ⟨"X", "B", 1, "low", 1, "good"⟩,
   ⟨"A", "Y", 5, "low", 5, "good"⟩]

/-- Optimizer over the two-corridor example. -/
def oC2 : ConvoyOptimizer := ⟨[], [], [], routesC2⟩

/-- Witness world: one supply point with an airstrip, one destination
with an airstrip, one AIR vehicle, no roads. -/
def exO : ConvoyOptimizer :=
  ⟨[⟨"SP1", 0, 0, true⟩],
   [⟨"D1", 0, 0, "high", 3, 5, true⟩],
   [⟨"V1", "truck", "AIR", 10, 100, 300⟩],
   []⟩

/-- The vehicle of the witness world. -/
def exV : Vehicle := ⟨"V1", "truck", "AIR", 10, 100, 300⟩

/-- The assignment produced in the witness world. -/
def exCA : ConvoyAssignment :=
  ⟨"V1", "truck", "AIR", "SP1", ["D1"], 0, 5, "low", ["SP1", "D1", "SP1"], 300⟩

theorem exO_assign : assign_vehicle_route exO exHav exV "SP1" ["D1"] true = some exCA := by
  norm_num +decide [assign_vehicle_route, assignCore, assignLoop, finishAssign,
    scanBest, scanStep, find_path_distance, fpSearch, runBfs, bfsLoop, expand,
    nodesOf, get_edge, dlookup, get_coords, lookupSP, lookupDest, get_demand,
    ltBest, bumpThreat, threatRank, round1, pySet, sortLe, insertLe, strLeB, lexLe,
    build_graph, ConvoyOptimizer.graph, exO, exHav, exV, exCA]

theorem exO_optimize : optimize_routes exO exHav "SP1" ["V1"] true = [exCA] := by
  have hv : exO.vehicles = [exV] := rfl
  have hd : exO.destinations = [⟨"D1", 0, 0, "high", 3, 5, true⟩] := rfl
  have hsp2 : exO.supply_points = [⟨"SP1", 0, 0, true⟩] := rfl
  have hvid : exV.vehicle_id = "V1" := rfl
  have hvrange : exV.max_range_km = 100 := rfl
  have hca : exCA.destinations = ["D1"] := rfl
  have hassign := exO_assign
  norm_num +decide [optimize_routes, optimizeFrom, optLoop, sortVehicles,
    sortByPriority, maxOf, get_coords, lookupSP, lookupDest, pySet, sortLe,
    insertLe, strLeB, lexLe, hv, hd, hsp2, hvid, hvrange, hca, exHav,
    List.mergeSort_singleton, hassign]

theorem oC2_fpAB : (find_path_distance oC2 exHav "A" "B" false).1 = some 2 := by
  norm_num +decide [find_path_distance, fpSearch, runBfs, bfsLoop, expand,
    nodesOf, get_edge, dlookup, get_coords, lookupSP, lookupDest, bumpThreat,
    threatRank, build_graph, ConvoyOptimizer.graph, addRoute, ensureKey,
    dictModify, dictSet, edgeData, oC2, routesC2, exHav]

theorem oC2_fpBA : (find_path_distance oC2 exHav "B" "A" false).1 = some 10 := by
  norm_num +decide [find_path_distance, fpSearch, runBfs, bfsLoop, expand,
    nodesOf, get_edge, dlookup, get_coords, lookupSP, lookupDest, bumpThreat,
    threatRank, build_graph, ConvoyOptimizer.graph, addRoute, ensureKey,
    dictModify, dictSet, edgeData, oC2, routesC2, exHav]

theorem round1_le_add (q : ℚ) : round1 q ≤ q + 1 / 20 := by
  unfold round1
  have h := abs_sub_round (q * 10)
  have h2 := abs_le.mp h
  have h3 : (round (q * 10) : ℚ) ≤ q * 10 + 1 / 2 := by linarith [h2.1, h2.2]
  linarith

theorem no_path_empty (o : ConvoyOptimizer) (hr : o.routes = []) (avoid : Bool)
    (a b : String) (hab : a ≠ b) : ∀ p, ¬ IsPath o.graph avoid a b p := by
  intro p hp
  have h2 := isPath_length_ge_two hp hab
  rcases isPath_decomp hp h2 with ⟨q, x, _, _, hadm, _⟩
  unfold admEdgeB get_edge at hadm
  have hg : o.graph = [] := by
    unfold ConvoyOptimizer.graph build_graph
    rw [hr]
    rfl
  rw [hg] at hadm
  simp [dlookup] at hadm

/-- Witness world with a supply point lacking an airstrip. -/
def exON : ConvoyOptimizer :=
  ⟨[⟨"SP2", 0, 0, false⟩],
   [⟨"D1", 0, 0, "high", 3, 5, true⟩],
   [⟨"V1", "truck", "AIR", 10, 100, 300⟩],
   []⟩

/-- Witness world for C7: same as `exO` except the priority columns of
the destination row. -/
def exO7 : ConvoyOptimizer :=
  ⟨[⟨"SP1", 0, 0, true⟩],
   [⟨"D1", 0, 0, "low", 1, 5, true⟩],
   [⟨"V1", "truck", "AIR", 10, 100, 300⟩],
   []⟩

/-- Witness world for C10: the requested origin id appears only in the
destinations table. -/
def exOX : ConvoyOptimizer :=
  ⟨[], [⟨"D0", 1, 2, "medium", 2, 3, true⟩],
   [⟨"V1", "truck", "AIR", 10, 100, 300⟩], []⟩

/-! ### The claims -/

/-- C1: for every graph built from the road segments, every pair of
distinct nodes and every threat-avoidance flag, if an admissible path
exists then `_find_path_distance` returns a finite distance together
with an admissible path from the source to the target whose number of
edges (equivalently, of nodes) is minimal among all admissible paths; it
need not have minimal total distance. -/
theorem fv_C1 (o : ConvoyOptimizer) (hav : ℚ × ℚ → ℚ × ℚ → ℚ) (a b : String)
    (avoid : Bool) (hab : a ≠ b) (hex : ∃ p, IsPath o.graph avoid a b p) :
    (∃ d, (find_path_distance o hav a b avoid).1 = some d) ∧
    IsPath o.graph avoid a b (find_path_distance o hav a b avoid).2.1 ∧
    ∀ q, IsPath o.graph avoid a b q →
      (find_path_distance o hav a b avoid).2.1.length ≤ q.length :=
  fp_min_spec o hav a b avoid hab hex

theorem fv_C1_witness :
    (∃ d, (find_path_distance oC2 exHav "A" "B" false).1 = some d) ∧
    IsPath oC2.graph false "A" "B" (find_path_distance oC2 exHav "A" "B" false).2.1 ∧
    ∀ q, IsPath oC2.graph false "A" "B" q →
      (find_path_distance oC2 exHav "A" "B" false).2.1.length ≤ q.length :=
  fv_C1 oC2 exHav "A" "B" false (by decide) ⟨["A", "X", "B"], by decide⟩

/-- C2 counterexample: in the two-corridor graph `routesC2` the nodes A
and B are mutually reachable, yet the two call directions return the
distances 2 and 10: BFS returns the distance of whichever minimum-hop
path it discovers first, and the two directions discover different
corridors.  This refutes the claim that the returned distances are
always equal. -/
theorem fv_C2_counterexample :
    (∃ p, IsPath oC2.graph false "A" "B" p) ∧
    (∃ p, IsPath oC2.graph false "B" "A" p) ∧
    (find_path_distance oC2 exHav "A" "B" false).1 = some 2 ∧
    (find_path_distance oC2 exHav "B" "A" false).1 = some 10 ∧
    ¬((find_path_distance oC2 exHav "A" "B" false).1 =
      (find_path_distance oC2 exHav "B" "A" false).1) := by
  refine ⟨⟨["A", "X", "B"], by decide⟩, ⟨["B", "X", "A"], by decide⟩,
    oC2_fpAB, oC2_fpBA, ?_⟩
  rw [oC2_fpAB, oC2_fpBA]
  simp only [Option.some.injEq]
  norm_num

/-- C2 (amended): for every graph built from the road segments and every
pair of nodes joined by at least one admissible path, the two call
directions of `_find_path_distance` return paths with the same number of
nodes (hence the same hop count) — but not necessarily the same total
distance, as the counterexample shows. -/
theorem fv_C2 (o : ConvoyOptimizer) (hav : ℚ × ℚ → ℚ × ℚ → ℚ) (a b : String)
    (avoid : Bool) (hex : ∃ p, IsPath o.graph avoid a b p) :
    (find_path_distance o hav a b avoid).2.1.length =
      (find_path_distance o hav b a avoid).2.1.length :=
  fp_hops_symm o hav a b avoid hex

theorem fv_C2_witness :
    (find_path_distance oC2 exHav "A" "B" false).2.1.length =
      (find_path_distance oC2 exHav "B" "A" false).2.1.length :=
  fv_C2 oC2 exHav "A" "B" false ⟨["A", "X", "B"], by decide⟩

/-- C3: AIR assignments respect airstrips.  Every assignment returned by
`optimize_routes` whose vehicle mode is AIR departs from an origin that,
when it matches a supply-points row, has an airstrip, and serves only
destinations whose rows have airstrips; and an AIR vehicle whose origin
matches a supply-points row without an airstrip yields no assignment at
all. -/
theorem fv_C3 (o : ConvoyOptimizer) (hav : ℚ × ℚ → ℚ × ℚ → ℚ) (sp : String)
    (avoid : Bool) :
    (∀ avail a, a ∈ optimize_routes o hav sp avail avoid →
      a.vehicle_mode = "AIR" →
      (∀ s, lookupSP o sp = some s → s.has_airstrip = true) ∧
      (∀ x ∈ a.destinations, ∃ d, lookupDest o x = some d ∧
        d.has_airstrip = true)) ∧
    (∀ (v : Vehicle) (s : SupplyPoint) (ids : List String), v.mode = "AIR" →
      lookupSP o sp = some s → s.has_airstrip = false →
      assign_vehicle_route o hav v sp ids avoid = none) := by
  constructor
  · intro avail a ha hmode
    obtain ⟨v, rem, hassign⟩ := optimize_mem o hav sp avail avoid a ha
    have hpost := assign_spec o hav v sp rem avoid a hassign
    have hv : v.mode = "AIR" := hpost.hmode.symm.trans hmode
    constructor
    · intro s hs
      by_contra hfalse
      have hfalse2 : s.has_airstrip = false := by
        cases hb : s.has_airstrip
        · rfl
        · exact absurd hb hfalse
      have hnone := assign_air_origin o hav v sp rem avoid s hv hs hfalse2
      rw [hnone] at hassign
      exact absurd hassign (by simp)
    · exact hpost.hair hv
  · intro v s ids hv hs hfalse
    exact assign_air_origin o hav v sp ids avoid s hv hs hfalse

theorem fv_C3_witness :
    ((∀ s, lookupSP exO "SP1" = some s → s.has_airstrip = true) ∧
      (∀ x ∈ exCA.destinations, ∃ d, lookupDest exO x = some d ∧
        d.has_airstrip = true)) ∧
    assign_vehicle_route exON exHav exV "SP2" ["D1"] true = none := by
  constructor
  · exact (fv_C3 exO exHav "SP1" true).1 ["V1"] exCA
      (by rw [exO_optimize]; simp) (by decide)
  · exact (fv_C3 exON exHav "SP2" true).2 exV ⟨"SP2", 0, 0, false⟩ ["D1"]
      (by decide) (by decide) (by decide)

/-- C4: capacity is never exceeded: every assignment produced by
`_assign_vehicle_route` carries total demand at most the capacity of its
vehicle, and hence so does every assignment returned by
`optimize_routes` (each of which is produced by some
`_assign_vehicle_route` call). -/
theorem fv_C4 (o : ConvoyOptimizer) (hav : ℚ × ℚ → ℚ × ℚ → ℚ) (sp : String)
    (avoid : Bool) :
    (∀ (v : Vehicle) (ids : List String) (a : ConvoyAssignment),
      assign_vehicle_route o hav v sp ids avoid = some a →
      a.total_demand_tons ≤ v.capacity_tons) ∧
    (∀ (avail : List String) (a : ConvoyAssignment),
      a ∈ optimize_routes o hav sp avail avoid →
      ∃ v rem, assign_vehicle_route o hav v sp rem avoid = some a ∧
        a.total_demand_tons ≤ v.capacity_tons) := by
  constructor
  · intro v ids a h
    exact (assign_spec o hav v sp ids avoid a h).hdem
  · intro avail a ha
    obtain ⟨v, rem, hassign⟩ := optimize_mem o hav sp avail avoid a ha
    exact ⟨v, rem, hassign, (assign_spec o hav v sp rem avoid a hassign).hdem⟩

theorem fv_C4_witness : exCA.total_demand_tons ≤ exV.capacity_tons :=
  (fv_C4 exO exHav "SP1" true).1 exV ["D1"] exCA exO_assign

/-- C5: the range budget is respected up to output rounding: every
assignment produced by `_assign_vehicle_route` reports a total distance
that is the 1-decimal rounding of an exact total not exceeding the
vehicle maximum range, so the reported value exceeds the maximum range
by at most the rounding tolerance 1/20 km. -/
theorem fv_C5 (o : ConvoyOptimizer) (hav : ℚ × ℚ → ℚ × ℚ → ℚ) (v : Vehicle)
    (sp : String) (ids : List String) (avoid : Bool) (a : ConvoyAssignment)
    (h : assign_vehicle_route o hav v sp ids avoid = some a) :
    (∃ t, a.total_distance_km = round1 t ∧ t ≤ v.max_range_km) ∧
    a.total_distance_km ≤ v.max_range_km + 1 / 20 := by
  obtain ⟨t, ht, htr⟩ := (assign_spec o hav v sp ids avoid a h).hdist
  refine ⟨⟨t, ht, htr⟩, ?_⟩
  rw [ht]
  calc round1 t ≤ t + 1 / 20 := round1_le_add t
    _ ≤ v.max_range_km + 1 / 20 := by linarith

theorem fv_C5_witness :
    ((∃ t, exCA.total_distance_km = round1 t ∧ t ≤ exV.max_range_km) ∧
      exCA.total_distance_km ≤ exV.max_range_km + 1 / 20) :=
  fv_C5 exO exHav exV "SP1" ["D1"] true exCA exO_assign

/-- C6: within one `optimize_routes` call the destination lists of the
returned assignments are pairwise disjoint: no destination id appears in
the destination list of more than one assignment. -/
theorem fv_C6 (o : ConvoyOptimizer) (hav : ℚ × ℚ → ℚ × ℚ → ℚ) (sp : String)
    (avail : List String) (avoid : Bool) :
    List.Pairwise (fun a b => ∀ x ∈ a.destinations, x ∉ b.destinations)
      (optimize_routes o hav sp avail avoid) := by
  simp only [optimize_routes]
  split
  · simp
  · split
    · simp
    · simp only [optimizeFrom]
      split
      · simp
      · refine optLoop_disjoint o hav avoid sp _ _ _ (by simp) (by simp)

/-- C7: the destination priority columns have no effect on the output:
two inputs identical except for the `priority` / `priority_score` values
of their destination rows produce the same assignment list, because the
priority-descending sort is erased when the candidates enter the
unordered remaining set. -/
theorem fv_C7 (o1 o2 : ConvoyOptimizer) (hav : ℚ × ℚ → ℚ × ℚ → ℚ) (sp : String)
    (avail : List String) (avoid : Bool) (h : OptAgree o1 o2) :
    optimize_routes o1 hav sp avail avoid = optimize_routes o2 hav sp avail avoid :=
  optimize_routes_congr h hav sp avail avoid

theorem fv_C7_witness :
    optimize_routes exO exHav "SP1" ["V1"] true =
      optimize_routes exO7 exHav "SP1" ["V1"] true :=
  fv_C7 exO exO7 exHav "SP1" ["V1"] true
    ⟨rfl, rfl, rfl, List.Forall₂.cons ⟨rfl, rfl, rfl, rfl, rfl⟩ List.Forall₂.nil⟩

/-- C8: geodesic fallback: for distinct endpoints with no admissible
path through the graph (including endpoints absent from the graph) whose
coordinates both resolve through the supply-points or destinations
tables, `_find_path_distance` returns the haversine distance of the two
coordinate pairs, the two-point path, and threat level low. -/
theorem fv_C8 (o : ConvoyOptimizer) (hav : ℚ × ℚ → ℚ × ℚ → ℚ) (a b : String)
    (avoid : Bool) (c1 c2 : ℚ × ℚ) (hab : a ≠ b)
    (hnopath : ∀ p, ¬ IsPath o.graph avoid a b p)
    (h1 : get_coords o a = some c1) (h2 : get_coords o b = some c2) :
    find_path_distance o hav a b avoid = (some (hav c1 c2), [a, b], "low") :=
  fp_fallback_spec o hav a b avoid hab hnopath c1 c2 h1 h2

theorem fv_C8_witness :
    find_path_distance exO exHav "SP1" "D1" true = (some (exHav (0, 0) (0, 0)),
      ["SP1", "D1"], "low") :=
  fv_C8 exO exHav "SP1" "D1" true (0, 0) (0, 0) (by decide)
    (no_path_empty exO rfl true "SP1" "D1" (by decide)) (by decide) (by decide)

/-- C9: every assignment produced by `_assign_vehicle_route` has a route
sequence that both starts and ends with the supply point id passed to
the call. -/
theorem fv_C9 (o : ConvoyOptimizer) (hav : ℚ × ℚ → ℚ × ℚ → ℚ) (v : Vehicle)
    (sp : String) (ids : List String) (avoid : Bool) (a : ConvoyAssignment)
    (h : assign_vehicle_route o hav v sp ids avoid = some a) :
    a.route_sequence.head? = some sp ∧ a.route_sequence.getLast? = some sp :=
  ⟨(assign_spec o hav v sp ids avoid a h).hhead,
   (assign_spec o hav v sp ids avoid a h).hlast⟩

theorem fv_C9_witness :
    exCA.route_sequence.head? = some "SP1" ∧
      exCA.route_sequence.getLast? = some "SP1" :=
  fv_C9 exO exHav exV "SP1" ["D1"] true exCA exO_assign

/-- C10: an origin id that is absent from the supply-points table but
present as a destination id does not produce the empty point-not-found
result: its coordinates resolve through the destinations table, route
construction proceeds from that location whenever any requested vehicle
exists, and the AIR departure airstrip check is skipped entirely for
such an origin. -/
theorem fv_C10 (o : ConvoyOptimizer) (hav : ℚ × ℚ → ℚ × ℚ → ℚ) (sp : String)
    (d : Destination) (h1 : lookupSP o sp = none) (h2 : lookupDest o sp = some d) :
    get_coords o sp = some (d.lat, d.lon) ∧
    (∀ (v : Vehicle) (ids : List String) (avoid : Bool),
      assign_vehicle_route o hav v sp ids avoid =
        assignCore o hav v sp ids avoid) ∧
    (∀ (avail : List String) (avoid : Bool),
      o.vehicles.filter (fun v => v.vehicle_id ∈ avail) ≠ [] →
      optimize_routes o hav sp avail avoid =
        optimizeFrom o hav sp
          (sortVehicles (o.vehicles.filter (fun v => v.vehicle_id ∈ avail)))
          (d.lat, d.lon) avoid) := by
  have hcoords : get_coords o sp = some (d.lat, d.lon) := by
    unfold get_coords
    rw [h1, h2]
  refine ⟨hcoords, ?_, ?_⟩
  · intro v ids avoid
    exact assign_skips_origin_check o hav v sp ids avoid h1
  · intro avail avoid hne
    simp only [optimize_routes]
    rw [if_neg hne, hcoords]

theorem fv_C10_witness :
    (get_coords exOX "D0" = some (1, 2) ∧
      (∀ (v : Vehicle) (ids : List String) (avoid : Bool),
        assign_vehicle_route exOX exHav v "D0" ids avoid =
          assignCore exOX exHav v "D0" ids avoid) ∧
      (∀ (avail : List String) (avoid : Bool),
        exOX.vehicles.filter (fun v => v.vehicle_id ∈ avail) ≠ [] →
        optimize_routes exOX exHav "D0" avail avoid =
          optimizeFrom exOX exHav "D0"
            (sortVehicles (exOX.vehicles.filter (fun v => v.vehicle_id ∈ avail)))
            (1, 2) avoid)) :=
  fv_C10 exOX exHav "D0" ⟨"D0", 1, 2, "medium", 2, 3, true⟩ (by decide) (by decide)
